import Mathlib

/-!
Verification of core execution subsystems of the Hyrise-derived engine:
the task state machine (`AbstractTask`), the hash join operator (`JoinHash`)
and the sort-merge join operator (`JoinSortMerge`).  All definitions are
shallow embeddings of the C++ source; theorems settle the specification
claims against them.
-/

namespace Opossum

/-! ## Common types (`types.hpp`) -/

/-- Shallow embedding of `RowID` (a `ChunkID` plus a `ChunkOffset`). -/
structure RowID where
  chunk_id : Nat
  chunk_offset : Nat
deriving DecidableEq, Repr

/-- `INVALID_CHUNK_OFFSET` is the maximum value of a 32-bit unsigned integer. -/
def INVALID_CHUNK_OFFSET : Nat := 4294967295

/-- `INVALID_CHUNK_ID` is the maximum value of a 32-bit unsigned integer. -/
def INVALID_CHUNK_ID : Nat := 4294967295

/-- `NULL_ROW_ID`, the reserved row id marking outer-join null padding. -/
def NULL_ROW_ID : RowID := ⟨INVALID_CHUNK_ID, INVALID_CHUNK_OFFSET⟩

/-- `RowID::is_null`. -/
def RowID.is_null (r : RowID) : Bool := r.chunk_offset = INVALID_CHUNK_OFFSET

/-- Shallow embedding of `JoinMode`. -/
inductive JoinMode where
  | Inner | Left | Right | Outer | Cross | Semi | Anti
deriving DecidableEq, Repr, Fintype

/-- Shallow embedding of `PredicateCondition` (the conditions the two join
operators accept). -/
inductive PredicateCondition where
  | Equals | NotEquals | LessThan | LessThanEquals | GreaterThan | GreaterThanEquals
deriving DecidableEq, Repr, Fintype

/-- A pair of column ids, `ColumnIDPair`. -/
def ColumnIDPair : Type := Nat × Nat
deriving DecidableEq, Repr

/-- Shallow embedding of `JoinPredicate` (an additional join predicate). -/
structure JoinPredicate where
  column_id_pair : Nat × Nat
  predicate_condition : PredicateCondition
deriving DecidableEq, Repr

/-! ## Task state machine (`AbstractTask`) -/

/-- Shallow embedding of `AbstractTask::TaskState`. -/
inductive TaskState where
  | Created | Scheduled | Enqueued | AssignedToWorker | Started | Done
deriving DecidableEq, Repr, Fintype

/-- Shallow embedding of `AbstractTask::_try_transition_to`.  The C++ code
exchanges `_state` with `new_state` and then validates the previous state:
a failed `Assert` (and the `Fail` default branch) is a fatal error, modelled
as `none`; otherwise the result is the state the task ends up in together
with the boolean return value of the function. -/
def _try_transition_to (previous new_state : TaskState) : Option (TaskState × Bool) :=
  match new_state with
  | .Scheduled => if previous = .Created then some (new_state, true) else none
  | .Enqueued =>
      if previous = .Enqueued then some (new_state, false)
      else if previous = .Scheduled then some (new_state, true) else none
  | .AssignedToWorker =>
      if previous = .AssignedToWorker then some (new_state, false)
      else if previous = .Enqueued then some (new_state, true) else none
  | .Started =>
      if previous = .Scheduled ∨ previous = .AssignedToWorker then some (new_state, true)
      else none
  | .Done => if previous = .Started then some (new_state, true) else none
  | .Created => none

/-- A successful (true-returning) state transition of the task state machine. -/
def TaskStep (s t : TaskState) : Prop := _try_transition_to s t = some (t, true)

instance (s t : TaskState) : Decidable (TaskStep s t) :=
  inferInstanceAs (Decidable (_try_transition_to s t = some (t, true)))

/-- The full canonical state sequence of a task that goes through a queue. -/
def fullTaskSequence : List TaskState :=
  [.Created, .Scheduled, .Enqueued, .AssignedToWorker, .Started, .Done]

/-- The canonical state sequence of a task executed directly from `Scheduled`. -/
def directTaskSequence : List TaskState := [.Created, .Scheduled, .Started, .Done]

/-- Shallow embedding of `AbstractTask::is_scheduled`. -/
def is_scheduled (state : TaskState) : Bool :=
  state = .Scheduled ∨ state = .AssignedToWorker ∨ state = .Started

/-- Shallow embedding of the guard and effect of `AbstractTask::set_as_predecessor_of`:
`Assert(!is_scheduled(), ...)` followed by incrementing the successor's
`_pending_predecessors` counter.  `none` models the fatal assertion. -/
def set_as_predecessor_of (state : TaskState) (successor_pending_predecessors : Nat) :
    Option Nat :=
  if is_scheduled state then none else some (successor_pending_predecessors + 1)

/-- Continuation sequences used to prove the trace-prefix property: the
remaining canonical sequence from a given state, on the queued path. -/
def taskCont1 : TaskState → List TaskState
  | .Created => [.Created, .Scheduled, .Enqueued, .AssignedToWorker, .Started, .Done]
  | .Scheduled => [.Scheduled, .Enqueued, .AssignedToWorker, .Started, .Done]
  | .Enqueued => [.Enqueued, .AssignedToWorker, .Started, .Done]
  | .AssignedToWorker => [.AssignedToWorker, .Started, .Done]
  | .Started => [.Started, .Done]
  | .Done => [.Done]

/-- Continuation sequences on the direct-execution path. -/
def taskCont2 : TaskState → List TaskState
  | .Created => [.Created, .Scheduled, .Started, .Done]
  | .Scheduled => [.Scheduled, .Started, .Done]
  | .Enqueued => [.Enqueued, .AssignedToWorker, .Started, .Done]
  | .AssignedToWorker => [.AssignedToWorker, .Started, .Done]
  | .Started => [.Started, .Done]
  | .Done => [.Done]

theorem taskTrace_prefix_cont (rest : List TaskState) :
    ∀ s : TaskState, List.Chain' TaskStep (s :: rest) →
      (s :: rest) <+: taskCont1 s ∨ (s :: rest) <+: taskCont2 s := by
  induction rest with
  | nil =>
      intro s _
      cases s <;> exact Or.inl ⟨_, rfl⟩
  | cons t rest ih =>
      intro s hchain
      have hstep : TaskStep s t := (List.chain'_cons.mp hchain).1
      have htail : List.Chain' TaskStep (t :: rest) := (List.chain'_cons.mp hchain).2
      have hrec := ih t htail
      have key : ∀ (l : List TaskState), (t :: rest) <+: l → (s :: t :: rest) <+: (s :: l) :=
        fun l hl => by
          obtain ⟨u, hu⟩ := hl
          exact ⟨u, by rw [List.cons_append, hu]⟩
      rcases hrec with h | h <;>
        · have h' := key _ h
          cases s <;> cases t <;>
            first
            | exact absurd hstep (by decide)
            | exact Or.inl h'
            | exact Or.inr h'

/-- C6: every sequence of states a task passes through (successful transitions
of `_try_transition_to`, starting at `Created`) is a prefix of
`Created, Scheduled, (Enqueued, AssignedToWorker)?, Started, Done`; re-entry
into `Enqueued` from `Enqueued` or into `AssignedToWorker` from
`AssignedToWorker` returns `false` with the state unchanged; every other
transition not on the canonical path is a fatal assertion. -/
theorem task_state_transitions_form_strict_dag :
    (∀ (rest : List TaskState), List.Chain' TaskStep (TaskState.Created :: rest) →
      (TaskState.Created :: rest) <+: fullTaskSequence ∨
      (TaskState.Created :: rest) <+: directTaskSequence) ∧
    _try_transition_to .Enqueued .Enqueued = some (.Enqueued, false) ∧
    _try_transition_to .AssignedToWorker .AssignedToWorker = some (.AssignedToWorker, false) ∧
    (∀ s t : TaskState, _try_transition_to s t = none ↔
      ¬ TaskStep s t ∧
      ¬ ((s = .Enqueued ∧ t = .Enqueued) ∨ (s = .AssignedToWorker ∧ t = .AssignedToWorker))) := by
  refine ⟨?_, rfl, rfl, by decide⟩
  intro rest hchain
  exact taskTrace_prefix_cont rest .Created hchain

/-- C6 witness: the theorem applied to the concrete trace
`Created, Scheduled, Enqueued`. -/
theorem task_state_transitions_form_strict_dag_witness :
    ([TaskState.Created, .Scheduled, .Enqueued] <+: fullTaskSequence ∨
     [TaskState.Created, .Scheduled, .Enqueued] <+: directTaskSequence) ∧
    _try_transition_to .Enqueued .Enqueued = some (.Enqueued, false) := by
  refine ⟨task_state_transitions_form_strict_dag.1 [.Scheduled, .Enqueued] ?_,
    task_state_transitions_form_strict_dag.2.1⟩
  exact List.Chain.cons (by decide) (List.Chain.cons (by decide) List.Chain.nil)

/-! ## Hash join (`JoinHash`) -/

/-- Shallow embedding of the input-swapping logic at the start of
`JoinHash::_on_execute` (part_002 lines 88-124): the computed swap flag, the
adjusted `(build_column_id, probe_column_id)` pair, the predicate condition
passed on to the implementation, and the adjusted additional join
predicates. -/
structure JoinHashSetup where
  inputs_swapped : Bool
  adjusted_column_ids : Nat × Nat
  predicate_condition : PredicateCondition
  additional_join_predicates : List JoinPredicate
deriving DecidableEq, Repr

/-- Shallow embedding of `JoinHash::_on_execute` up to the construction of the
implementation.  `flip_predicate_condition` is defined outside the embedded
sources, so it is taken as an opaque function argument. -/
def joinHash_on_execute_setup (flip_predicate_condition : PredicateCondition → PredicateCondition)
    (mode : JoinMode) (left_row_count right_row_count : Nat)
    (column_ids : Nat × Nat) (predicate_condition : PredicateCondition)
    (additional_join_predicates : List JoinPredicate) : JoinHashSetup :=
  let inputs_swapped_initial : Bool :=
    mode = JoinMode.Left ∨ mode = JoinMode.Anti ∨ mode = JoinMode.Semi
  let inputs_swapped : Bool :=
    if ¬ inputs_swapped_initial = true ∧ left_row_count > right_row_count then true
    else inputs_swapped_initial
  let adjusted_column_ids :=
    if inputs_swapped then (column_ids.2, column_ids.1) else (column_ids.1, column_ids.2)
  let adjusted_predicates :=
    if inputs_swapped then
      additional_join_predicates.map (fun pred =>
        ⟨(pred.column_id_pair.2, pred.column_id_pair.1),
         flip_predicate_condition pred.predicate_condition⟩)
    else additional_join_predicates
  ⟨inputs_swapped, adjusted_column_ids, predicate_condition, adjusted_predicates⟩

/-- Shallow embedding of `JoinHash::JoinHashImpl::_calculate_radix_bits`
(part_002 lines 177-222).  The C++ `double` arithmetic is modelled exactly
over the rationals; `ceil(log2 x)` for `x ≥ 1` is `Int.clog 2 x`.
`sizeof_left_type` stands for `sizeof(LeftType)` and `sizeof_row_id` for
`sizeof(RowID)`. -/
def _calculate_radix_bits (build_relation_size sizeof_left_type sizeof_row_id : Nat) : Nat :=
  let l2_cache_size : ℚ := 256000
  let complete_hash_map_size : ℚ :=
    ((build_relation_size * (sizeof_left_type + 2 * sizeof_row_id + 1) : Nat) : ℚ) / (8 / 10)
  let adaption_factor : ℚ := 2
  let cluster_count : ℚ := max 1 (adaption_factor * complete_hash_map_size / l2_cache_size)
  (Int.clog 2 cluster_count).toNat

/-- The radix-bits formula as stated in the specification:
`ceil(log2(max(1, 2 * ((build_rows * per_entry) / 0.8) / 256000)))`, with
`ceil(log2 q)` rendered over the naturals as `Nat.clog 2` of the ceiling
of `q`. -/
def radix_bits_formula (build_rows per_entry : Nat) : Nat :=
  Nat.clog 2 ⌈max 1 (2 * (((build_rows * per_entry : Nat) : ℚ) / (8 / 10)) / 256000)⌉₊

/-- `AllTypeVariant` restricted to nullable integers, sufficient for the
embedded join predicate evaluation. -/
abbrev AllTypeVariant : Type := Option Int

/-- Equality comparison of two `AllTypeVariant`s: strict equality, a NULL
compares unequal to everything including NULL. -/
def variantEquals : AllTypeVariant → AllTypeVariant → Bool
  | some a, some b => a = b
  | _, _ => false

/-- A table as seen by `_apply_additional_join_predicates`: a list of chunks,
each chunk a list of segments (one per column), each segment a list of
values. -/
abbrev TableData : Type := List (List (List AllTypeVariant))

/-- `table.get_chunk(row.chunk_id)->segments()[column]` indexed at
`row.chunk_offset`. -/
def tableValue (table : TableData) (row : RowID) (column : Nat) : AllTypeVariant :=
  (((table.getD row.chunk_id []).getD column []).getD row.chunk_offset none)

/-- Shallow embedding of
`JoinHash::JoinHashImpl::_apply_additional_join_predicates`
(part_002 lines 459-501): keeps exactly the row pairs for which every
additional predicate compares the two cited column values equal. -/
def _apply_additional_join_predicates (left : TableData) (left_rows_to_verify : List RowID)
    (right : TableData) (right_rows_to_verify : List RowID)
    (join_predicates : List JoinPredicate) : List RowID × List RowID :=
  if join_predicates.isEmpty then (left_rows_to_verify, right_rows_to_verify)
  else
    let kept := (left_rows_to_verify.zip right_rows_to_verify).filter (fun rows =>
      join_predicates.all (fun pred =>
        variantEquals (tableValue left rows.1 pred.column_id_pair.1)
          (tableValue right rows.2 pred.column_id_pair.2)))
    (kept.map Prod.fst, kept.map Prod.snd)

/-- Shallow embedding of the per-partition output loop of
`JoinHash::JoinHashImpl::_on_execute` (part_002 lines 403-446): partitions
whose two position lists are both empty are skipped, all other position-list
pairs are moved into output chunks unchanged — the call to
`_apply_additional_join_predicates` at lines 420-423 is commented out in the
source, so no filtering happens between probing and output. -/
def joinHash_output_pos_lists (left_pos_lists right_pos_lists : List (List RowID)) :
    List (List RowID × List RowID) :=
  (left_pos_lists.zip right_pos_lists).filter (fun p => !(p.1.isEmpty && p.2.isEmpty))

/-- C3: the hash join swaps inputs unconditionally for Left, Semi and Anti
modes, otherwise exactly when the left row count exceeds the right row
count; on a swap every additional predicate gets its column pair swapped
and its condition flipped by `flip_predicate_condition`, while the primary
predicate condition is passed through unchanged. -/
theorem join_hash_input_swapping_correct
    (flip : PredicateCondition → PredicateCondition) (mode : JoinMode)
    (left_row_count right_row_count : Nat) (column_ids : Nat × Nat)
    (predicate_condition : PredicateCondition) (preds : List JoinPredicate) :
    let setup := joinHash_on_execute_setup flip mode left_row_count right_row_count
      column_ids predicate_condition preds
    ((mode = .Left ∨ mode = .Semi ∨ mode = .Anti) → setup.inputs_swapped = true) ∧
    (¬ (mode = .Left ∨ mode = .Semi ∨ mode = .Anti) →
      (setup.inputs_swapped = true ↔ left_row_count > right_row_count)) ∧
    (setup.inputs_swapped = true →
      setup.additional_join_predicates = preds.map (fun pred =>
        ⟨(pred.column_id_pair.2, pred.column_id_pair.1), flip pred.predicate_condition⟩)) ∧
    (setup.inputs_swapped = false → setup.additional_join_predicates = preds) ∧
    setup.predicate_condition = predicate_condition := by
  cases mode <;>
    simp [joinHash_on_execute_setup] <;>
    by_cases h : left_row_count > right_row_count <;> simp [h]

/-- C3 witness: the theorem instantiated at an Inner join with a larger left
input and one additional predicate: the inputs are swapped and the
additional predicate has its column pair swapped. -/
theorem join_hash_input_swapping_correct_witness :
    (joinHash_on_execute_setup (fun c => c) .Inner 5 3 (0, 1) .Equals
      [⟨(2, 3), .Equals⟩]).inputs_swapped = true ∧
    (joinHash_on_execute_setup (fun c => c) .Inner 5 3 (0, 1) .Equals
      [⟨(2, 3), .Equals⟩]).additional_join_predicates = [⟨(3, 2), .Equals⟩] := by
  have h := join_hash_input_swapping_correct (fun c => c) .Inner 5 3 (0, 1) .Equals
    [⟨(2, 3), .Equals⟩]
  have hs := (h.2.1 (by simp)).mpr (by omega)
  exact ⟨hs, h.2.2.1 hs⟩

/-- C4: with no caller-supplied radix bits, the number of radix bits equals
`ceil(log2(max(1, 2 * ((build_rows * (sizeof(LeftType) + 2*sizeof(RowID) + 1)) / 0.8)
/ 256000)))`, computed from the build relation row count and the assumed
256 000-byte L2 capacity. -/
theorem calculate_radix_bits_matches_formula
    (build_relation_size sizeof_left_type sizeof_row_id : Nat) :
    _calculate_radix_bits build_relation_size sizeof_left_type sizeof_row_id =
      radix_bits_formula build_relation_size (sizeof_left_type + 2 * sizeof_row_id + 1) := by
  show (Int.clog 2 (max 1 (2 * (((build_relation_size *
      (sizeof_left_type + 2 * sizeof_row_id + 1) : Nat) : ℚ) / (8 / 10)) / 256000))).toNat = _
  rw [Int.clog_of_one_le_right 2 (le_max_left 1 _)]
  simp [radix_bits_formula]

/-- C1 (code bug): a candidate pair produced by the primary hash match whose
additional predicate fails (left value 10 against right value 20 in column 1)
is nevertheless kept by the output assembly of `JoinHash` — the only call of
`_apply_additional_join_predicates` in the repository is commented out —
although the filter itself, as documented, would remove the pair. -/
theorem join_hash_additional_predicate_filter_disabled :
    joinHash_output_pos_lists [[⟨0, 0⟩]] [[⟨0, 0⟩]] = [([⟨0, 0⟩], [⟨0, 0⟩])] ∧
    _apply_additional_join_predicates
      [[[some 1], [some 10]]] [⟨0, 0⟩] [[[some 1], [some 20]]] [⟨0, 0⟩]
      [⟨(1, 1), .Equals⟩] = ([], []) := by
  constructor
  · rfl
  · decide

/-! ## Sort-merge join (`JoinSortMerge`) -/

/-- Shallow embedding of the constructor validation of `JoinSortMerge`
(part_002 lines 540-557): the conjunction of its `DebugAssert` conditions on
the mode and the predicate condition. -/
def joinSortMerge_constructor_valid (mode : JoinMode) (op : PredicateCondition) : Bool :=
  (mode ≠ JoinMode.Cross : Bool) &&
  ((mode ≠ JoinMode.Semi ∧ mode ≠ JoinMode.Anti) ∨ op = PredicateCondition.Equals : Bool) &&
  (op = PredicateCondition.Equals ∨ op = PredicateCondition.LessThan ∨
   op = PredicateCondition.GreaterThan ∨ op = PredicateCondition.LessThanEquals ∨
   op = PredicateCondition.GreaterThanEquals ∨ op = PredicateCondition.NotEquals : Bool) &&
  (op ≠ PredicateCondition.NotEquals ∨ mode = JoinMode.Inner : Bool)

/-- Shallow embedding of `MaterializedValue<T>`. -/
structure MaterializedValue (α : Type) where
  value : α
  row_id : RowID
deriving DecidableEq, Repr

/-- One cluster of materialized values (`MaterializedSegment<T>`). -/
abbrev MaterializedSegment (α : Type) : Type := List (MaterializedValue α)

/-- The list of clusters of one input table (`MaterializedSegmentList<T>`). -/
abbrev MaterializedSegmentList (α : Type) : Type := List (MaterializedSegment α)

/-- Shallow embedding of `TablePosition`. -/
structure TablePosition where
  cluster : Nat
  index : Nat
deriving DecidableEq, Repr

/-- Shallow embedding of `TableRange`; the field `stop` is the source's
member named after the keyword `end`. -/
structure TableRange where
  start : TablePosition
  stop : TablePosition
deriving DecidableEq, Repr

/-- `TablePosition::to`. -/
def TablePosition.to (a b : TablePosition) : TableRange := ⟨a, b⟩

/-- Shallow embedding of `TableRange::for_every_row_id`, returning the row
ids the C++ loop hands to its action, in order. -/
def TableRange.rowIds (r : TableRange) (table : MaterializedSegmentList α) : List RowID :=
  (List.range (r.stop.cluster + 1 - r.start.cluster)).flatMap (fun k =>
    let cluster := r.start.cluster + k
    let seg := table.getD cluster []
    let start_index := if cluster = r.start.cluster then r.start.index else 0
    let end_index := if cluster = r.stop.cluster then r.stop.index else seg.length
    ((seg.drop start_index).take (end_index - start_index)).map (·.row_id))

/-- Shallow embedding of `_end_of_table`. -/
def _end_of_table (table : MaterializedSegmentList α) : TablePosition :=
  ⟨table.length - 1, (table.getD (table.length - 1) []).length⟩

/-- Shallow embedding of `CompareResult`. -/
inductive CompareResult where
  | Less | Greater | Equal
deriving DecidableEq, Repr

/-- Shallow embedding of `_compare`. -/
def _compare [LinearOrder α] (left right : α) : CompareResult :=
  if left < right then .Less else if left = right then .Equal else .Greater

/-- The output position lists of one output cluster
(`_output_pos_lists_left[c]` and `_output_pos_lists_right[c]`). -/
structure JoinOutput where
  left : List RowID
  right : List RowID
deriving DecidableEq, Repr

/-- Shallow embedding of `_emit_combination`. -/
def _emit_combination (out : JoinOutput) (l r : RowID) : JoinOutput :=
  ⟨out.left ++ [l], out.right ++ [r]⟩

/-- Shallow embedding of `_emit_all_combinations`: the cross product of the
two ranges is emitted, except for Semi and Anti joins, which record only the
left row ids. -/
def _emit_all_combinations (mode : JoinMode)
    (sorted_left_table sorted_right_table : MaterializedSegmentList α)
    (out : JoinOutput) (left_range right_range : TableRange) : JoinOutput :=
  if mode ≠ JoinMode.Semi ∧ mode ≠ JoinMode.Anti then
    (left_range.rowIds sorted_left_table).foldl (fun acc left_row_id =>
      (right_range.rowIds sorted_right_table).foldl (fun acc2 right_row_id =>
        _emit_combination acc2 left_row_id right_row_id) acc) out
  else
    ⟨out.left ++ left_range.rowIds sorted_left_table, out.right⟩

/-- Shallow embedding of `_emit_right_null_combinations`. -/
def _emit_right_null_combinations (sorted_left_table : MaterializedSegmentList α)
    (out : JoinOutput) (left_range : TableRange) : JoinOutput :=
  (left_range.rowIds sorted_left_table).foldl
    (fun acc l => _emit_combination acc l NULL_ROW_ID) out

/-- Shallow embedding of `_emit_left_null_combinations`. -/
def _emit_left_null_combinations (sorted_right_table : MaterializedSegmentList α)
    (out : JoinOutput) (right_range : TableRange) : JoinOutput :=
  (right_range.rowIds sorted_right_table).foldl
    (fun acc r => _emit_combination acc NULL_ROW_ID r) out

/-- Shallow embedding of `_run_length`: the length of the run of equal values
starting at `start_index` (`std::upper_bound` with comparator
`a.value < b.value` on a sorted cluster, rendered as `takeWhile`). -/
def _run_length [LinearOrder α] (start_index : Nat) (values : MaterializedSegment α) : Nat :=
  match values.drop start_index with
  | [] => 0
  | x :: _ =>
      ((values.drop start_index).takeWhile (fun y => !(decide (x.value < y.value)))).length

/-- Shallow embedding of `_join_runs` (part_002 lines 720-773). -/
def _join_runs (op : PredicateCondition) (mode : JoinMode)
    (sorted_left_table sorted_right_table : MaterializedSegmentList α)
    (end_of_left_table end_of_right_table : TablePosition)
    (out : JoinOutput) (left_run right_run : TableRange)
    (compare_result : CompareResult) : JoinOutput :=
  match op with
  | .Equals =>
    match compare_result with
    | .Equal =>
        _emit_all_combinations mode sorted_left_table sorted_right_table out left_run right_run
    | .Less =>
        if mode = JoinMode.Left ∨ mode = JoinMode.Outer then
          _emit_right_null_combinations sorted_left_table out left_run
        else out
    | .Greater =>
        if mode = JoinMode.Right ∨ mode = JoinMode.Outer then
          _emit_left_null_combinations sorted_right_table out right_run
        else out
  | .NotEquals =>
    match compare_result with
    | .Greater =>
        _emit_all_combinations mode sorted_left_table sorted_right_table out
          (left_run.start.to end_of_left_table) right_run
    | .Equal =>
        let out1 := _emit_all_combinations mode sorted_left_table sorted_right_table out
          (left_run.stop.to end_of_left_table) right_run
        _emit_all_combinations mode sorted_left_table sorted_right_table out1
          left_run (right_run.stop.to end_of_right_table)
    | .Less =>
        _emit_all_combinations mode sorted_left_table sorted_right_table out
          left_run (right_run.start.to end_of_right_table)
  | .GreaterThan =>
    match compare_result with
    | .Greater =>
        _emit_all_combinations mode sorted_left_table sorted_right_table out
          (left_run.start.to end_of_left_table) right_run
    | .Equal =>
        _emit_all_combinations mode sorted_left_table sorted_right_table out
          (left_run.stop.to end_of_left_table) right_run
    | .Less => out
  | .GreaterThanEquals =>
    if compare_result = .Greater ∨ compare_result = .Equal then
      _emit_all_combinations mode sorted_left_table sorted_right_table out
        (left_run.start.to end_of_left_table) right_run
    else out
  | .LessThan =>
    match compare_result with
    | .Less =>
        _emit_all_combinations mode sorted_left_table sorted_right_table out
          left_run (right_run.start.to end_of_right_table)
    | .Equal =>
        _emit_all_combinations mode sorted_left_table sorted_right_table out
          left_run (right_run.stop.to end_of_right_table)
    | .Greater => out
  | .LessThanEquals =>
    if compare_result = .Less ∨ compare_result = .Equal then
      _emit_all_combinations mode sorted_left_table sorted_right_table out
        left_run (right_run.start.to end_of_right_table)
    else out

/-- The element-wise walk of `_remove_row_ids_from_materialized_segment`.
`left_accessor` models the cached segment accessor reading the left join
column at a match row id (matches contain no NULLs, the optional is accessed
directly). -/
def _remove_row_ids_go [LinearOrder α] (left_accessor : RowID → α) :
    MaterializedSegment α → List RowID → List RowID
  | [], _ => []
  | input, [] => input.map (·.row_id)
  | i :: input_rest, m :: matches_rest =>
    if i.value = left_accessor m then
      _remove_row_ids_go left_accessor input_rest matches_rest
    else if i.value < left_accessor m then
      i.row_id :: _remove_row_ids_go left_accessor input_rest (m :: matches_rest)
    else (i :: input_rest).map (·.row_id)

/-- Shallow embedding of `_remove_row_ids_from_materialized_segment`
(part_002 lines 918-978): anti-merges the left input cluster against the
matches of the semi join. -/
def _remove_row_ids_from_materialized_segment [LinearOrder α] (left_accessor : RowID → α)
    (match_rows : List RowID) (input_segment : MaterializedSegment α) : List RowID :=
  if match_rows.isEmpty then input_segment.map (·.row_id)
  else _remove_row_ids_go left_accessor input_segment match_rows

/-- Shallow embedding of the while loop of `_join_cluster`
(part_002 lines 863-889).  The fuel argument bounds the number of
iterations; every iteration advances at least one run, so a fuel of
`left_cluster.length + right_cluster.length` always lets the loop exit
regularly.  Returns the final `(left_run_start, right_run_start)` and the
accumulated output. -/
def _join_cluster_loop [LinearOrder α] (op : PredicateCondition) (mode : JoinMode)
    (sorted_left_table sorted_right_table : MaterializedSegmentList α)
    (end_of_left_table end_of_right_table : TablePosition) (cluster_number : Nat)
    (left_cluster right_cluster : MaterializedSegment α) :
    Nat → Nat → Nat → JoinOutput → Nat × Nat × JoinOutput
  | 0, left_run_start, right_run_start, out => (left_run_start, right_run_start, out)
  | fuel + 1, left_run_start, right_run_start, out =>
    if h : left_run_start < left_cluster.length ∧ right_run_start < right_cluster.length then
      let left_run_end := left_run_start + _run_length left_run_start left_cluster
      let right_run_end := right_run_start + _run_length right_run_start right_cluster
      let compare_result := _compare (left_cluster.get ⟨left_run_start, h.1⟩).value
        (right_cluster.get ⟨right_run_start, h.2⟩).value
      let out2 := _join_runs op mode sorted_left_table sorted_right_table
        end_of_left_table end_of_right_table out
        ⟨⟨cluster_number, left_run_start⟩, ⟨cluster_number, left_run_end⟩⟩
        ⟨⟨cluster_number, right_run_start⟩, ⟨cluster_number, right_run_end⟩⟩ compare_result
      match compare_result with
      | .Equal =>
          _join_cluster_loop op mode sorted_left_table sorted_right_table
            end_of_left_table end_of_right_table cluster_number left_cluster right_cluster
            fuel left_run_end right_run_end out2
      | .Less =>
          _join_cluster_loop op mode sorted_left_table sorted_right_table
            end_of_left_table end_of_right_table cluster_number left_cluster right_cluster
            fuel left_run_end right_run_start out2
      | .Greater =>
          _join_cluster_loop op mode sorted_left_table sorted_right_table
            end_of_left_table end_of_right_table cluster_number left_cluster right_cluster
            fuel left_run_start right_run_end out2
    else (left_run_start, right_run_start, out)

/-- Shallow embedding of `_join_cluster` (part_002 lines 850-911): the merge
loop, the leftover-run handling and, for Anti mode, the overwrite of the
left output list by the anti-merge. -/
def _join_cluster [LinearOrder α] (op : PredicateCondition) (mode : JoinMode)
    (sorted_left_table sorted_right_table : MaterializedSegmentList α)
    (end_of_left_table end_of_right_table : TablePosition)
    (left_accessor : RowID → α) (cluster_number : Nat) : JoinOutput :=
  let left_cluster := sorted_left_table.getD cluster_number []
  let right_cluster := sorted_right_table.getD cluster_number []
  let res := _join_cluster_loop op mode sorted_left_table sorted_right_table
    end_of_left_table end_of_right_table cluster_number left_cluster right_cluster
    (left_cluster.length + right_cluster.length) 0 0 ⟨[], []⟩
  let left_run_start := res.1
  let right_run_start := res.2.1
  let out := res.2.2
  let right_rest : TableRange :=
    ⟨⟨cluster_number, right_run_start⟩, ⟨cluster_number, right_cluster.length⟩⟩
  let left_rest : TableRange :=
    ⟨⟨cluster_number, left_run_start⟩, ⟨cluster_number, left_cluster.length⟩⟩
  let out2 :=
    if left_run_start < left_cluster.length then
      _join_runs op mode sorted_left_table sorted_right_table
        end_of_left_table end_of_right_table out left_rest right_rest .Less
    else if right_run_start < right_cluster.length then
      _join_runs op mode sorted_left_table sorted_right_table
        end_of_left_table end_of_right_table out left_rest right_rest .Greater
    else out
  if mode = JoinMode.Anti then
    ⟨_remove_row_ids_from_materialized_segment left_accessor out2.left left_cluster,
     out2.right⟩
  else out2

/-- Shallow embedding of `_table_min_value`: the first value of the first
non-empty partition.  The source throws (`std::logic_error`) when every
partition is empty; the embedding returns `none`. -/
def _table_min_value (sorted_table : MaterializedSegmentList α) : Option α :=
  sorted_table.findSome? (fun partition => partition.head?.map (·.value))

/-- Shallow embedding of `_table_max_value`: the last value of the last
non-empty partition, `none` when every partition is empty. -/
def _table_max_value (sorted_table : MaterializedSegmentList α) : Option α :=
  sorted_table.reverse.findSome? (fun partition => partition.getLast?.map (·.value))

/-- Shallow embedding of `_first_value_that_satisfies`. -/
def _first_value_that_satisfies (sorted_table : MaterializedSegmentList α)
    (condition : α → Bool) : Option TablePosition :=
  (List.range sorted_table.length).findSome? (fun partition_id =>
    let partition := sorted_table.getD partition_id []
    match partition.getLast? with
    | some back =>
        if condition back.value then
          (partition.findIdx? (fun mv => condition mv.value)).map
            (fun index => TablePosition.mk partition_id index)
        else none
    | none => none)

/-- The index of the last element of a list satisfying a condition. -/
def findLastIdx (condition : α → Bool) (l : List α) : Option Nat :=
  (l.reverse.findIdx? condition).map (fun k => l.length - 1 - k)

/-- Shallow embedding of `_first_value_that_satisfies_reverse`: scans the
partitions backwards and returns the position one past the last satisfying
element. -/
def _first_value_that_satisfies_reverse (sorted_table : MaterializedSegmentList α)
    (condition : α → Bool) : Option TablePosition :=
  (List.range sorted_table.length).reverse.findSome? (fun partition_id =>
    let partition := sorted_table.getD partition_id []
    match partition.head? with
    | some front =>
        if condition front.value then
          (findLastIdx (fun mv => condition mv.value) partition).map
            (fun index => TablePosition.mk partition_id (index + 1))
        else none
    | none => none)

/-- Applies `f` to the output lists of cluster 0, modelling emissions into
`_output_pos_lists_left[0]` and `_output_pos_lists_right[0]`. -/
def modifyCluster0 (outputs : List JoinOutput) (f : JoinOutput → JoinOutput) :
    List JoinOutput :=
  outputs.set 0 (f (outputs.getD 0 ⟨[], []⟩))

/-- Shallow embedding of `_left_outer_non_equi_join` (part_002 lines
1061-1095).  Where the source would throw on an all-empty table, the
embedding leaves the outputs unchanged. -/
def _left_outer_non_equi_join [LinearOrder α] (op : PredicateCondition)
    (sorted_left_table sorted_right_table : MaterializedSegmentList α)
    (outputs : List JoinOutput) : List JoinOutput :=
  match _table_min_value sorted_left_table, _table_max_value sorted_left_table with
  | some left_min_value, some left_max_value =>
    let end_of_right_table := _end_of_table sorted_right_table
    if op = PredicateCondition.LessThan then
      match _first_value_that_satisfies sorted_right_table
          (fun value => decide (value > left_min_value)) with
      | some result => modifyCluster0 outputs (fun out =>
          _emit_left_null_combinations sorted_right_table out
            ((TablePosition.mk 0 0).to result))
      | none => outputs
    else if op = PredicateCondition.LessThanEquals then
      match _first_value_that_satisfies sorted_right_table
          (fun value => decide (value ≥ left_min_value)) with
      | some result => modifyCluster0 outputs (fun out =>
          _emit_left_null_combinations sorted_right_table out
            ((TablePosition.mk 0 0).to result))
      | none => outputs
    else if op = PredicateCondition.GreaterThan then
      match _first_value_that_satisfies_reverse sorted_right_table
          (fun value => decide (value < left_max_value)) with
      | some result => modifyCluster0 outputs (fun out =>
          _emit_left_null_combinations sorted_right_table out
            (result.to end_of_right_table))
      | none => outputs
    else if op = PredicateCondition.GreaterThanEquals then
      match _first_value_that_satisfies_reverse sorted_right_table
          (fun value => decide (value ≤ left_max_value)) with
      | some result => modifyCluster0 outputs (fun out =>
          _emit_left_null_combinations sorted_right_table out
            (result.to end_of_right_table))
      | none => outputs
    else outputs
  | _, _ => outputs

/-- Shallow embedding of `_right_outer_non_equi_join` (part_002 lines
1102-1136). -/
def _right_outer_non_equi_join [LinearOrder α] (op : PredicateCondition)
    (sorted_left_table sorted_right_table : MaterializedSegmentList α)
    (outputs : List JoinOutput) : List JoinOutput :=
  match _table_min_value sorted_right_table, _table_max_value sorted_right_table with
  | some right_min_value, some right_max_value =>
    let end_of_left_table := _end_of_table sorted_left_table
    if op = PredicateCondition.LessThan then
      match _first_value_that_satisfies_reverse sorted_left_table
          (fun value => decide (value < right_max_value)) with
      | some result => modifyCluster0 outputs (fun out =>
          _emit_right_null_combinations sorted_left_table out
            (result.to end_of_left_table))
      | none => outputs
    else if op = PredicateCondition.LessThanEquals then
      match _first_value_that_satisfies_reverse sorted_left_table
          (fun value => decide (value ≤ right_max_value)) with
      | some result => modifyCluster0 outputs (fun out =>
          _emit_right_null_combinations sorted_left_table out
            (result.to end_of_left_table))
      | none => outputs
    else if op = PredicateCondition.GreaterThan then
      match _first_value_that_satisfies sorted_left_table
          (fun value => decide (value > right_min_value)) with
      | some result => modifyCluster0 outputs (fun out =>
          _emit_right_null_combinations sorted_left_table out
            ((TablePosition.mk 0 0).to result))
      | none => outputs
    else if op = PredicateCondition.GreaterThanEquals then
      match _first_value_that_satisfies sorted_left_table
          (fun value => decide (value ≥ right_min_value)) with
      | some result => modifyCluster0 outputs (fun out =>
          _emit_right_null_combinations sorted_left_table out
            ((TablePosition.mk 0 0).to result))
      | none => outputs
    else outputs
  | _, _ => outputs

/-- Shallow embedding of `_perform_join` (part_002 lines 1141-1171): one
merge per cluster (with the empty-cluster shortcut for inner/semi equi
joins) followed by the outer non-equi patches. -/
def _perform_join [LinearOrder α] (op : PredicateCondition) (mode : JoinMode)
    (sorted_left_table sorted_right_table : MaterializedSegmentList α)
    (left_accessor : RowID → α) (cluster_count : Nat) : List JoinOutput :=
  let end_of_left_table := _end_of_table sorted_left_table
  let end_of_right_table := _end_of_table sorted_right_table
  let outputs := (List.range cluster_count).map (fun cluster_number =>
    if (mode = JoinMode.Inner ∨ mode = JoinMode.Semi) ∧ op = PredicateCondition.Equals ∧
        ((sorted_left_table.getD cluster_number []).isEmpty ∨
         (sorted_right_table.getD cluster_number []).isEmpty) then
      (⟨[], []⟩ : JoinOutput)
    else
      _join_cluster op mode sorted_left_table sorted_right_table
        end_of_left_table end_of_right_table left_accessor cluster_number)
  let outputs2 :=
    if (mode = JoinMode.Left ∨ mode = JoinMode.Outer) ∧ op ≠ PredicateCondition.Equals then
      _left_outer_non_equi_join op sorted_left_table sorted_right_table outputs
    else outputs
  if (mode = JoinMode.Right ∨ mode = JoinMode.Outer) ∧ op ≠ PredicateCondition.Equals then
    _right_outer_non_equi_join op sorted_left_table sorted_right_table outputs2
  else outputs2

/-- Shallow embedding of the null-row patch of `JoinSortMerge::_on_execute`
(part_002 lines 1276-1298): appends one more output cluster pairing
null-valued rows of the outer sides with `NULL_ROW_ID` padding. -/
def nullRowPatch (mode : JoinMode) (null_rows_left null_rows_right : List RowID)
    (outputs : List JoinOutput) : List JoinOutput :=
  let include_null_left := mode = JoinMode.Left ∨ mode = JoinMode.Outer
  let include_null_right := mode = JoinMode.Right ∨ mode = JoinMode.Outer
  if include_null_left ∨ include_null_right then
    let left_part := if include_null_left then null_rows_left else []
    let right_part := if include_null_right then null_rows_right else []
    outputs ++ [⟨left_part ++ right_part.map (fun _ => NULL_ROW_ID),
                 left_part.map (fun _ => NULL_ROW_ID) ++ right_part⟩]
  else outputs

/-- The merge phase of `JoinSortMerge::_on_execute` including the null-row
patch: the state of `_output_pos_lists_left`/`_output_pos_lists_right` right
before output assembly. -/
def sortMergeMergePhase [LinearOrder α] (op : PredicateCondition) (mode : JoinMode)
    (sorted_left_table sorted_right_table : MaterializedSegmentList α)
    (left_accessor : RowID → α) (cluster_count : Nat)
    (null_rows_left null_rows_right : List RowID) : List JoinOutput :=
  nullRowPatch mode null_rows_left null_rows_right
    (_perform_join op mode sorted_left_table sorted_right_table left_accessor cluster_count)

/-- C5 counterexample: a sort-merge join constructed with full Outer mode and
the non-equality predicate `<` passes every constructor assertion — it is
not rejected as a contract violation (and `_perform_join` handles it through
the outer non-equi patches). -/
theorem join_sort_merge_outer_less_than_accepted :
    joinSortMerge_constructor_valid .Outer .LessThan = true := by decide

/-- C5 amended: the sort-merge constructor accepts exactly the combinations
with mode other than Cross, where Semi/Anti come with equality and `≠` comes
only with Inner mode; in particular full Outer is accepted with every
predicate except `≠`. -/
theorem join_sort_merge_validation_characterized :
    ∀ (mode : JoinMode) (op : PredicateCondition),
      joinSortMerge_constructor_valid mode op = true ↔
        (mode ≠ JoinMode.Cross ∧
         ((mode = JoinMode.Semi ∨ mode = JoinMode.Anti) → op = PredicateCondition.Equals) ∧
         (op = PredicateCondition.NotEquals → mode = JoinMode.Inner)) := by
  decide

/-- C2 counterexample: in the single-cluster input `left = [(value 1, row (0,0))]`,
`right = [(value 1, row (0,1))]` the two runs compare Equal.  The claim
predicts that the iteration emits `L_from_start × R` (the pair
`((0,0),(0,1))`) and advances only the left run; the code emits nothing (the
emitted left range starts at the run *end*) and advances both runs. -/
theorem join_runs_greater_than_claim_false :
    _join_cluster_loop (α := Int) .GreaterThan .Inner [[⟨1, ⟨0, 0⟩⟩]] [[⟨1, ⟨0, 1⟩⟩]]
        ⟨0, 1⟩ ⟨0, 1⟩ 0 [⟨1, ⟨0, 0⟩⟩] [⟨1, ⟨0, 1⟩⟩] 1 0 0 ⟨[], []⟩ =
      (1, 1, (⟨[], []⟩ : JoinOutput)) ∧
    _join_cluster_loop (α := Int) .GreaterThan .Inner [[⟨1, ⟨0, 0⟩⟩]] [[⟨1, ⟨0, 1⟩⟩]]
        ⟨0, 1⟩ ⟨0, 1⟩ 0 [⟨1, ⟨0, 0⟩⟩] [⟨1, ⟨0, 1⟩⟩] 1 0 0 ⟨[], []⟩ ≠
      (1, 0, (⟨[⟨0, 0⟩], [⟨0, 1⟩]⟩ : JoinOutput)) := by
  constructor
  · decide
  · decide

/-- C2 amended: for predicate `>`, one iteration of the merge loop of
`_join_cluster` behaves as follows.  When the current runs compare Equal,
it emits (left rows from the run *end* to the end of the table) × (right
run) and advances *both* runs; when they compare Less, it emits nothing and
advances the *left* run; when they compare Greater, it emits (left rows from
the run start to the end of the table) × (right run) and advances the
*right* run. -/
theorem join_runs_greater_than_behavior [LinearOrder α] (mode : JoinMode)
    (sorted_left_table sorted_right_table : MaterializedSegmentList α)
    (end_of_left_table end_of_right_table : TablePosition) (cluster_number : Nat)
    (left_cluster right_cluster : MaterializedSegment α)
    (fuel left_run_start right_run_start : Nat) (out : JoinOutput)
    (h1 : left_run_start < left_cluster.length)
    (h2 : right_run_start < right_cluster.length) :
    (_compare (left_cluster.get ⟨left_run_start, h1⟩).value
        (right_cluster.get ⟨right_run_start, h2⟩).value = .Equal →
      _join_cluster_loop .GreaterThan mode sorted_left_table sorted_right_table
          end_of_left_table end_of_right_table cluster_number left_cluster right_cluster
          (fuel + 1) left_run_start right_run_start out =
        _join_cluster_loop .GreaterThan mode sorted_left_table sorted_right_table
          end_of_left_table end_of_right_table cluster_number left_cluster right_cluster
          fuel (left_run_start + _run_length left_run_start left_cluster)
          (right_run_start + _run_length right_run_start right_cluster)
          (_emit_all_combinations mode sorted_left_table sorted_right_table out
            ((TablePosition.mk cluster_number
                (left_run_start + _run_length left_run_start left_cluster)).to
              end_of_left_table)
            ⟨⟨cluster_number, right_run_start⟩,
             ⟨cluster_number, right_run_start + _run_length right_run_start right_cluster⟩⟩)) ∧
    (_compare (left_cluster.get ⟨left_run_start, h1⟩).value
        (right_cluster.get ⟨right_run_start, h2⟩).value = .Less →
      _join_cluster_loop .GreaterThan mode sorted_left_table sorted_right_table
          end_of_left_table end_of_right_table cluster_number left_cluster right_cluster
          (fuel + 1) left_run_start right_run_start out =
        _join_cluster_loop .GreaterThan mode sorted_left_table sorted_right_table
          end_of_left_table end_of_right_table cluster_number left_cluster right_cluster
          fuel (left_run_start + _run_length left_run_start left_cluster)
          right_run_start out) ∧
    (_compare (left_cluster.get ⟨left_run_start, h1⟩).value
        (right_cluster.get ⟨right_run_start, h2⟩).value = .Greater →
      _join_cluster_loop .GreaterThan mode sorted_left_table sorted_right_table
          end_of_left_table end_of_right_table cluster_number left_cluster right_cluster
          (fuel + 1) left_run_start right_run_start out =
        _join_cluster_loop .GreaterThan mode sorted_left_table sorted_right_table
          end_of_left_table end_of_right_table cluster_number left_cluster right_cluster
          fuel left_run_start
          (right_run_start + _run_length right_run_start right_cluster)
          (_emit_all_combinations mode sorted_left_table sorted_right_table out
            ((TablePosition.mk cluster_number left_run_start).to end_of_left_table)
            ⟨⟨cluster_number, right_run_start⟩,
             ⟨cluster_number, right_run_start + _run_length right_run_start right_cluster⟩⟩)) := by
  refine ⟨?_, ?_, ?_⟩ <;> intro hcmp <;>
    · rw [_join_cluster_loop, dif_pos ⟨h1, h2⟩]
      simp only [hcmp, _join_runs, TablePosition.to]

/-- C2 witness: the amended theorem applied to the concrete single-cluster
input `left = [(1, (0,0))]`, `right = [(2, (0,1))]`, whose runs compare
Less: the iteration advances the left run and emits nothing. -/
theorem join_runs_greater_than_behavior_witness :
    _join_cluster_loop (α := Int) .GreaterThan .Inner [[⟨1, ⟨0, 0⟩⟩]] [[⟨2, ⟨0, 1⟩⟩]]
        ⟨0, 1⟩ ⟨0, 1⟩ 0 [⟨1, ⟨0, 0⟩⟩] [⟨2, ⟨0, 1⟩⟩] 1 0 0 ⟨[], []⟩ =
      _join_cluster_loop (α := Int) .GreaterThan .Inner [[⟨1, ⟨0, 0⟩⟩]] [[⟨2, ⟨0, 1⟩⟩]]
        ⟨0, 1⟩ ⟨0, 1⟩ 0 [⟨1, ⟨0, 0⟩⟩] [⟨2, ⟨0, 1⟩⟩] 0 1 0 ⟨[], []⟩ :=
  (join_runs_greater_than_behavior .Inner [[⟨1, ⟨0, 0⟩⟩]] [[⟨2, ⟨0, 1⟩⟩]]
    ⟨0, 1⟩ ⟨0, 1⟩ 0 [⟨1, ⟨0, 0⟩⟩] [⟨2, ⟨0, 1⟩⟩] 0 0 0 ⟨[], []⟩
    (by decide) (by decide)).2.1 (by decide)

/-! ### Pairing mirror of the merge phase (claim C10)

The following definitions restate the merge phase with a single list of
`(left row id, right row id)` partner pairs per output cluster, one pair per
`_emit_combination` call.  They follow the wording of the claim; the
C10 result proves that for every mode other than Semi and Anti the two
output position lists maintained by the source are exactly the two
projections of this pair list. -/

/-- A list of join-partner pairs. -/
abbrev PairList : Type := List (RowID × RowID)

/-- The two output position lists determined by a pair list. -/
def toJoinOutput (pairs : PairList) : JoinOutput :=
  ⟨pairs.map Prod.fst, pairs.map Prod.snd⟩

/-- Pair-list mirror of `_emit_combination`. -/
def emitCombinationPairs (pairs : PairList) (l r : RowID) : PairList := pairs ++ [(l, r)]

/-- Pair-list mirror of `_emit_all_combinations` (cross product of the two
ranges; the Semi/Anti special case is out of scope of C10). -/
def emitAllCombinationsPairs (sorted_left_table sorted_right_table : MaterializedSegmentList α)
    (pairs : PairList) (left_range right_range : TableRange) : PairList :=
  (left_range.rowIds sorted_left_table).foldl (fun acc left_row_id =>
    (right_range.rowIds sorted_right_table).foldl (fun acc2 right_row_id =>
      emitCombinationPairs acc2 left_row_id right_row_id) acc) pairs

/-- Pair-list mirror of `_emit_right_null_combinations`. -/
def emitRightNullPairs (sorted_left_table : MaterializedSegmentList α)
    (pairs : PairList) (left_range : TableRange) : PairList :=
  (left_range.rowIds sorted_left_table).foldl
    (fun acc l => emitCombinationPairs acc l NULL_ROW_ID) pairs

/-- Pair-list mirror of `_emit_left_null_combinations`. -/
def emitLeftNullPairs (sorted_right_table : MaterializedSegmentList α)
    (pairs : PairList) (right_range : TableRange) : PairList :=
  (right_range.rowIds sorted_right_table).foldl
    (fun acc r => emitCombinationPairs acc NULL_ROW_ID r) pairs

/-- Pair-list mirror of `_join_runs`. -/
def joinRunsPairs (op : PredicateCondition) (mode : JoinMode)
    (sorted_left_table sorted_right_table : MaterializedSegmentList α)
    (end_of_left_table end_of_right_table : TablePosition)
    (pairs : PairList) (left_run right_run : TableRange)
    (compare_result : CompareResult) : PairList :=
  match op with
  | .Equals =>
    match compare_result with
    | .Equal =>
        emitAllCombinationsPairs sorted_left_table sorted_right_table pairs left_run right_run
    | .Less =>
        if mode = JoinMode.Left ∨ mode = JoinMode.Outer then
          emitRightNullPairs sorted_left_table pairs left_run
        else pairs
    | .Greater =>
        if mode = JoinMode.Right ∨ mode = JoinMode.Outer then
          emitLeftNullPairs sorted_right_table pairs right_run
        else pairs
  | .NotEquals =>
    match compare_result with
    | .Greater =>
        emitAllCombinationsPairs sorted_left_table sorted_right_table pairs
          (left_run.start.to end_of_left_table) right_run
    | .Equal =>
        let pairs1 := emitAllCombinationsPairs sorted_left_table sorted_right_table pairs
          (left_run.stop.to end_of_left_table) right_run
        emitAllCombinationsPairs sorted_left_table sorted_right_table pairs1
          left_run (right_run.stop.to end_of_right_table)
    | .Less =>
        emitAllCombinationsPairs sorted_left_table sorted_right_table pairs
          left_run (right_run.start.to end_of_right_table)
  | .GreaterThan =>
    match compare_result with
    | .Greater =>
        emitAllCombinationsPairs sorted_left_table sorted_right_table pairs
          (left_run.start.to end_of_left_table) right_run
    | .Equal =>
        emitAllCombinationsPairs sorted_left_table sorted_right_table pairs
          (left_run.stop.to end_of_left_table) right_run
    | .Less => pairs
  | .GreaterThanEquals =>
    if compare_result = .Greater ∨ compare_result = .Equal then
      emitAllCombinationsPairs sorted_left_table sorted_right_table pairs
        (left_run.start.to end_of_left_table) right_run
    else pairs
  | .LessThan =>
    match compare_result with
    | .Less =>
        emitAllCombinationsPairs sorted_left_table sorted_right_table pairs
          left_run (right_run.start.to end_of_right_table)
    | .Equal =>
        emitAllCombinationsPairs sorted_left_table sorted_right_table pairs
          left_run (right_run.stop.to end_of_right_table)
    | .Greater => pairs
  | .LessThanEquals =>
    if compare_result = .Less ∨ compare_result = .Equal then
      emitAllCombinationsPairs sorted_left_table sorted_right_table pairs
        left_run (right_run.start.to end_of_right_table)
    else pairs

/-- Pair-list mirror of the merge loop of `_join_cluster`. -/
def joinClusterLoopPairs [LinearOrder α] (op : PredicateCondition) (mode : JoinMode)
    (sorted_left_table sorted_right_table : MaterializedSegmentList α)
    (end_of_left_table end_of_right_table : TablePosition) (cluster_number : Nat)
    (left_cluster right_cluster : MaterializedSegment α) :
    Nat → Nat → Nat → PairList → Nat × Nat × PairList
  | 0, left_run_start, right_run_start, pairs => (left_run_start, right_run_start, pairs)
  | fuel + 1, left_run_start, right_run_start, pairs =>
    if h : left_run_start < left_cluster.length ∧ right_run_start < right_cluster.length then
      let left_run_end := left_run_start + _run_length left_run_start left_cluster
      let right_run_end := right_run_start + _run_length right_run_start right_cluster
      let compare_result := _compare (left_cluster.get ⟨left_run_start, h.1⟩).value
        (right_cluster.get ⟨right_run_start, h.2⟩).value
      let pairs2 := joinRunsPairs op mode sorted_left_table sorted_right_table
        end_of_left_table end_of_right_table pairs
        ⟨⟨cluster_number, left_run_start⟩, ⟨cluster_number, left_run_end⟩⟩
        ⟨⟨cluster_number, right_run_start⟩, ⟨cluster_number, right_run_end⟩⟩ compare_result
      match compare_result with
      | .Equal =>
          joinClusterLoopPairs op mode sorted_left_table sorted_right_table
            end_of_left_table end_of_right_table cluster_number left_cluster right_cluster
            fuel left_run_end right_run_end pairs2
      | .Less =>
          joinClusterLoopPairs op mode sorted_left_table sorted_right_table
            end_of_left_table end_of_right_table cluster_number left_cluster right_cluster
            fuel left_run_end right_run_start pairs2
      | .Greater =>
          joinClusterLoopPairs op mode sorted_left_table sorted_right_table
            end_of_left_table end_of_right_table cluster_number left_cluster right_cluster
            fuel left_run_start right_run_end pairs2
    else (left_run_start, right_run_start, pairs)

/-- Pair-list mirror of `_join_cluster` (for the modes of C10, hence without
the Anti overwrite). -/
def joinClusterPairs [LinearOrder α] (op : PredicateCondition) (mode : JoinMode)
    (sorted_left_table sorted_right_table : MaterializedSegmentList α)
    (end_of_left_table end_of_right_table : TablePosition) (cluster_number : Nat) : PairList :=
  let left_cluster := sorted_left_table.getD cluster_number []
  let right_cluster := sorted_right_table.getD cluster_number []
  let res := joinClusterLoopPairs op mode sorted_left_table sorted_right_table
    end_of_left_table end_of_right_table cluster_number left_cluster right_cluster
    (left_cluster.length + right_cluster.length) 0 0 []
  let left_run_start := res.1
  let right_run_start := res.2.1
  let pairs := res.2.2
  let right_rest : TableRange :=
    ⟨⟨cluster_number, right_run_start⟩, ⟨cluster_number, right_cluster.length⟩⟩
  let left_rest : TableRange :=
    ⟨⟨cluster_number, left_run_start⟩, ⟨cluster_number, left_cluster.length⟩⟩
  if left_run_start < left_cluster.length then
    joinRunsPairs op mode sorted_left_table sorted_right_table
      end_of_left_table end_of_right_table pairs left_rest right_rest .Less
  else if right_run_start < right_cluster.length then
    joinRunsPairs op mode sorted_left_table sorted_right_table
      end_of_left_table end_of_right_table pairs left_rest right_rest .Greater
  else pairs

/-- Pair-list mirror of `modifyCluster0`. -/
def modifyCluster0Pairs (outputs : List PairList) (f : PairList → PairList) : List PairList :=
  outputs.set 0 (f (outputs.getD 0 []))

/-- Pair-list mirror of `_left_outer_non_equi_join`. -/
def leftOuterNonEquiPairs [LinearOrder α] (op : PredicateCondition)
    (sorted_left_table sorted_right_table : MaterializedSegmentList α)
    (outputs : List PairList) : List PairList :=
  match _table_min_value sorted_left_table, _table_max_value sorted_left_table with
  | some left_min_value, some left_max_value =>
    let end_of_right_table := _end_of_table sorted_right_table
    if op = PredicateCondition.LessThan then
      match _first_value_that_satisfies sorted_right_table
          (fun value => decide (value > left_min_value)) with
      | some result => modifyCluster0Pairs outputs (fun pairs =>
          emitLeftNullPairs sorted_right_table pairs ((TablePosition.mk 0 0).to result))
      | none => outputs
    else if op = PredicateCondition.LessThanEquals then
      match _first_value_that_satisfies sorted_right_table
          (fun value => decide (value ≥ left_min_value)) with
      | some result => modifyCluster0Pairs outputs (fun pairs =>
          emitLeftNullPairs sorted_right_table pairs ((TablePosition.mk 0 0).to result))
      | none => outputs
    else if op = PredicateCondition.GreaterThan then
      match _first_value_that_satisfies_reverse sorted_right_table
          (fun value => decide (value < left_max_value)) with
      | some result => modifyCluster0Pairs outputs (fun pairs =>
          emitLeftNullPairs sorted_right_table pairs (result.to end_of_right_table))
      | none => outputs
    else if op = PredicateCondition.GreaterThanEquals then
      match _first_value_that_satisfies_reverse sorted_right_table
          (fun value => decide (value ≤ left_max_value)) with
      | some result => modifyCluster0Pairs outputs (fun pairs =>
          emitLeftNullPairs sorted_right_table pairs (result.to end_of_right_table))
      | none => outputs
    else outputs
  | _, _ => outputs

/-- Pair-list mirror of `_right_outer_non_equi_join`. -/
def rightOuterNonEquiPairs [LinearOrder α] (op : PredicateCondition)
    (sorted_left_table sorted_right_table : MaterializedSegmentList α)
    (outputs : List PairList) : List PairList :=
  match _table_min_value sorted_right_table, _table_max_value sorted_right_table with
  | some right_min_value, some right_max_value =>
    let end_of_left_table := _end_of_table sorted_left_table
    if op = PredicateCondition.LessThan then
      match _first_value_that_satisfies_reverse sorted_left_table
          (fun value => decide (value < right_max_value)) with
      | some result => modifyCluster0Pairs outputs (fun pairs =>
          emitRightNullPairs sorted_left_table pairs (result.to end_of_left_table))
      | none => outputs
    else if op = PredicateCondition.LessThanEquals then
      match _first_value_that_satisfies_reverse sorted_left_table
          (fun value => decide (value ≤ right_max_value)) with
      | some result => modifyCluster0Pairs outputs (fun pairs =>
          emitRightNullPairs sorted_left_table pairs (result.to end_of_left_table))
      | none => outputs
    else if op = PredicateCondition.GreaterThan then
      match _first_value_that_satisfies sorted_left_table
          (fun value => decide (value > right_min_value)) with
      | some result => modifyCluster0Pairs outputs (fun pairs =>
          emitRightNullPairs sorted_left_table pairs ((TablePosition.mk 0 0).to result))
      | none => outputs
    else if op = PredicateCondition.GreaterThanEquals then
      match _first_value_that_satisfies sorted_left_table
          (fun value => decide (value ≥ right_min_value)) with
      | some result => modifyCluster0Pairs outputs (fun pairs =>
          emitRightNullPairs sorted_left_table pairs ((TablePosition.mk 0 0).to result))
      | none => outputs
    else outputs
  | _, _ => outputs

/-- Pair-list mirror of `_perform_join`. -/
def performJoinPairs [LinearOrder α] (op : PredicateCondition) (mode : JoinMode)
    (sorted_left_table sorted_right_table : MaterializedSegmentList α)
    (cluster_count : Nat) : List PairList :=
  let end_of_left_table := _end_of_table sorted_left_table
  let end_of_right_table := _end_of_table sorted_right_table
  let outputs := (List.range cluster_count).map (fun cluster_number =>
    if (mode = JoinMode.Inner ∨ mode = JoinMode.Semi) ∧ op = PredicateCondition.Equals ∧
        ((sorted_left_table.getD cluster_number []).isEmpty ∨
         (sorted_right_table.getD cluster_number []).isEmpty) then
      ([] : PairList)
    else
      joinClusterPairs op mode sorted_left_table sorted_right_table
        end_of_left_table end_of_right_table cluster_number)
  let outputs2 :=
    if (mode = JoinMode.Left ∨ mode = JoinMode.Outer) ∧ op ≠ PredicateCondition.Equals then
      leftOuterNonEquiPairs op sorted_left_table sorted_right_table outputs
    else outputs
  if (mode = JoinMode.Right ∨ mode = JoinMode.Outer) ∧ op ≠ PredicateCondition.Equals then
    rightOuterNonEquiPairs op sorted_left_table sorted_right_table outputs2
  else outputs2

/-- Pair-list mirror of the null-row patch. -/
def nullRowPatchPairs (mode : JoinMode) (null_rows_left null_rows_right : List RowID)
    (outputs : List PairList) : List PairList :=
  let include_null_left := mode = JoinMode.Left ∨ mode = JoinMode.Outer
  let include_null_right := mode = JoinMode.Right ∨ mode = JoinMode.Outer
  if include_null_left ∨ include_null_right then
    let left_part := if include_null_left then null_rows_left else []
    let right_part := if include_null_right then null_rows_right else []
    outputs ++ [left_part.map (fun r => (r, NULL_ROW_ID)) ++
                right_part.map (fun r => (NULL_ROW_ID, r))]
  else outputs

/-- Pair-list mirror of the whole merge phase. -/
def sortMergeMergePhasePairs [LinearOrder α] (op : PredicateCondition) (mode : JoinMode)
    (sorted_left_table sorted_right_table : MaterializedSegmentList α)
    (cluster_count : Nat) (null_rows_left null_rows_right : List RowID) : List PairList :=
  nullRowPatchPairs mode null_rows_left null_rows_right
    (performJoinPairs op mode sorted_left_table sorted_right_table cluster_count)

theorem emit_combination_toOutput (pairs : PairList) (l r : RowID) :
    _emit_combination (toJoinOutput pairs) l r = toJoinOutput (emitCombinationPairs pairs l r) := by
  simp [_emit_combination, emitCombinationPairs, toJoinOutput]

theorem foldl_emit_fixed_left (l : RowID) (rows : List RowID) :
    ∀ pairs : PairList,
      rows.foldl (fun acc r => _emit_combination acc l r) (toJoinOutput pairs) =
        toJoinOutput (rows.foldl (fun acc r => emitCombinationPairs acc l r) pairs) := by
  induction rows with
  | nil => intro pairs; rfl
  | cons r rows ih =>
      intro pairs
      simp only [List.foldl_cons, emit_combination_toOutput]
      exact ih _

theorem emit_right_null_toOutput {α : Type} (sorted_left_table : MaterializedSegmentList α)
    (left_range : TableRange) (pairs : PairList) :
    _emit_right_null_combinations sorted_left_table (toJoinOutput pairs) left_range =
      toJoinOutput (emitRightNullPairs sorted_left_table pairs left_range) := by
  unfold _emit_right_null_combinations emitRightNullPairs
  generalize left_range.rowIds sorted_left_table = rows
  induction rows generalizing pairs with
  | nil => rfl
  | cons l rows ih =>
      simp only [List.foldl_cons, emit_combination_toOutput]
      exact ih _

theorem emit_left_null_toOutput {α : Type} (sorted_right_table : MaterializedSegmentList α)
    (right_range : TableRange) (pairs : PairList) :
    _emit_left_null_combinations sorted_right_table (toJoinOutput pairs) right_range =
      toJoinOutput (emitLeftNullPairs sorted_right_table pairs right_range) := by
  unfold _emit_left_null_combinations emitLeftNullPairs
  generalize right_range.rowIds sorted_right_table = rows
  induction rows generalizing pairs with
  | nil => rfl
  | cons r rows ih =>
      simp only [List.foldl_cons, emit_combination_toOutput]
      exact ih _

theorem emit_all_combinations_toOutput {α : Type} (mode : JoinMode)
    (h1 : mode ≠ JoinMode.Semi) (h2 : mode ≠ JoinMode.Anti)
    (sorted_left_table sorted_right_table : MaterializedSegmentList α)
    (left_range right_range : TableRange) (pairs : PairList) :
    _emit_all_combinations mode sorted_left_table sorted_right_table
        (toJoinOutput pairs) left_range right_range =
      toJoinOutput (emitAllCombinationsPairs sorted_left_table sorted_right_table
        pairs left_range right_range) := by
  unfold _emit_all_combinations emitAllCombinationsPairs
  rw [if_pos ⟨h1, h2⟩]
  generalize left_range.rowIds sorted_left_table = lrows
  generalize right_range.rowIds sorted_right_table = rrows
  induction lrows generalizing pairs with
  | nil => rfl
  | cons l lrows ih =>
      simp only [List.foldl_cons]
      rw [foldl_emit_fixed_left l rrows pairs]
      exact ih _

theorem join_runs_toOutput {α : Type} (op : PredicateCondition) (mode : JoinMode)
    (h1 : mode ≠ JoinMode.Semi) (h2 : mode ≠ JoinMode.Anti)
    (sorted_left_table sorted_right_table : MaterializedSegmentList α)
    (end_of_left_table end_of_right_table : TablePosition)
    (left_run right_run : TableRange) (compare_result : CompareResult) (pairs : PairList) :
    _join_runs op mode sorted_left_table sorted_right_table end_of_left_table
        end_of_right_table (toJoinOutput pairs) left_run right_run compare_result =
      toJoinOutput (joinRunsPairs op mode sorted_left_table sorted_right_table
        end_of_left_table end_of_right_table pairs left_run right_run compare_result) := by
  cases op <;> cases compare_result <;>
    simp only [_join_runs, joinRunsPairs] <;>
    (try split_ifs) <;>
    (try simp only [emit_all_combinations_toOutput mode h1 h2, emit_right_null_toOutput,
      emit_left_null_toOutput])

theorem join_cluster_loop_toOutput {α : Type} [LinearOrder α]
    (op : PredicateCondition) (mode : JoinMode)
    (h1 : mode ≠ JoinMode.Semi) (h2 : mode ≠ JoinMode.Anti)
    (sorted_left_table sorted_right_table : MaterializedSegmentList α)
    (end_of_left_table end_of_right_table : TablePosition) (cluster_number : Nat)
    (left_cluster right_cluster : MaterializedSegment α) (fuel : Nat) :
    ∀ (ls rs : Nat) (pairs : PairList),
      _join_cluster_loop op mode sorted_left_table sorted_right_table
          end_of_left_table end_of_right_table cluster_number left_cluster right_cluster
          fuel ls rs (toJoinOutput pairs) =
        ((joinClusterLoopPairs op mode sorted_left_table sorted_right_table
            end_of_left_table end_of_right_table cluster_number left_cluster right_cluster
            fuel ls rs pairs).1,
         (joinClusterLoopPairs op mode sorted_left_table sorted_right_table
            end_of_left_table end_of_right_table cluster_number left_cluster right_cluster
            fuel ls rs pairs).2.1,
         toJoinOutput (joinClusterLoopPairs op mode sorted_left_table sorted_right_table
            end_of_left_table end_of_right_table cluster_number left_cluster right_cluster
            fuel ls rs pairs).2.2) := by
  induction fuel with
  | zero => intro ls rs pairs; rfl
  | succ fuel ih =>
      intro ls rs pairs
      rw [_join_cluster_loop, joinClusterLoopPairs]
      by_cases h : ls < left_cluster.length ∧ rs < right_cluster.length
      · rw [dif_pos h, dif_pos h]
        rcases hc : _compare (left_cluster.get ⟨ls, h.1⟩).value
            (right_cluster.get ⟨rs, h.2⟩).value with _ | _ | _ <;>
          simp only [hc, join_runs_toOutput op mode h1 h2] <;>
          exact ih _ _ _
      · rw [dif_neg h, dif_neg h]

theorem join_cluster_toOutput {α : Type} [LinearOrder α]
    (op : PredicateCondition) (mode : JoinMode)
    (h1 : mode ≠ JoinMode.Semi) (h2 : mode ≠ JoinMode.Anti)
    (sorted_left_table sorted_right_table : MaterializedSegmentList α)
    (end_of_left_table end_of_right_table : TablePosition)
    (left_accessor : RowID → α) (cluster_number : Nat) :
    _join_cluster op mode sorted_left_table sorted_right_table
        end_of_left_table end_of_right_table left_accessor cluster_number =
      toJoinOutput (joinClusterPairs op mode sorted_left_table sorted_right_table
        end_of_left_table end_of_right_table cluster_number) := by
  simp only [_join_cluster, joinClusterPairs]
  rw [show (⟨[], []⟩ : JoinOutput) = toJoinOutput [] from rfl,
    join_cluster_loop_toOutput op mode h1 h2]
  rw [if_neg h2]
  split_ifs <;> first | rfl | rw [join_runs_toOutput op mode h1 h2]

theorem modifyCluster0_toOutput (outputs : List PairList)
    (f : JoinOutput → JoinOutput) (g : PairList → PairList)
    (hfg : ∀ pairs, f (toJoinOutput pairs) = toJoinOutput (g pairs)) :
    modifyCluster0 (outputs.map toJoinOutput) f =
      (modifyCluster0Pairs outputs g).map toJoinOutput := by
  unfold modifyCluster0 modifyCluster0Pairs
  rw [show (⟨[], []⟩ : JoinOutput) = toJoinOutput [] from rfl, List.getD_map, hfg,
    List.map_set]

theorem left_outer_non_equi_toOutput {α : Type} [LinearOrder α] (op : PredicateCondition)
    (sorted_left_table sorted_right_table : MaterializedSegmentList α)
    (outputs : List PairList) :
    _left_outer_non_equi_join op sorted_left_table sorted_right_table
        (outputs.map toJoinOutput) =
      (leftOuterNonEquiPairs op sorted_left_table sorted_right_table outputs).map
        toJoinOutput := by
  unfold _left_outer_non_equi_join leftOuterNonEquiPairs
  cases _table_min_value sorted_left_table <;> cases _table_max_value sorted_left_table <;>
    try rfl
  split_ifs <;>
    first
    | rfl
    | (dsimp only
       split <;>
         first
         | rfl
         | (apply modifyCluster0_toOutput
            intro pairs
            exact emit_left_null_toOutput _ _ _))

theorem right_outer_non_equi_toOutput {α : Type} [LinearOrder α] (op : PredicateCondition)
    (sorted_left_table sorted_right_table : MaterializedSegmentList α)
    (outputs : List PairList) :
    _right_outer_non_equi_join op sorted_left_table sorted_right_table
        (outputs.map toJoinOutput) =
      (rightOuterNonEquiPairs op sorted_left_table sorted_right_table outputs).map
        toJoinOutput := by
  unfold _right_outer_non_equi_join rightOuterNonEquiPairs
  cases _table_min_value sorted_right_table <;>
    cases _table_max_value sorted_right_table <;> try rfl
  split_ifs <;>
    first
    | rfl
    | (dsimp only
       split <;>
         first
         | rfl
         | (apply modifyCluster0_toOutput
            intro pairs
            exact emit_right_null_toOutput _ _ _))

theorem perform_join_toOutput {α : Type} [LinearOrder α]
    (op : PredicateCondition) (mode : JoinMode)
    (h1 : mode ≠ JoinMode.Semi) (h2 : mode ≠ JoinMode.Anti)
    (sorted_left_table sorted_right_table : MaterializedSegmentList α)
    (left_accessor : RowID → α) (cluster_count : Nat) :
    _perform_join op mode sorted_left_table sorted_right_table left_accessor cluster_count =
      (performJoinPairs op mode sorted_left_table sorted_right_table cluster_count).map
        toJoinOutput := by
  simp only [_perform_join, performJoinPairs]
  have houts : (List.range cluster_count).map (fun cluster_number =>
      if (mode = JoinMode.Inner ∨ mode = JoinMode.Semi) ∧ op = PredicateCondition.Equals ∧
          ((sorted_left_table.getD cluster_number []).isEmpty ∨
           (sorted_right_table.getD cluster_number []).isEmpty) then
        (⟨[], []⟩ : JoinOutput)
      else
        _join_cluster op mode sorted_left_table sorted_right_table
          (_end_of_table sorted_left_table) (_end_of_table sorted_right_table)
          left_accessor cluster_number) =
      ((List.range cluster_count).map (fun cluster_number =>
        if (mode = JoinMode.Inner ∨ mode = JoinMode.Semi) ∧ op = PredicateCondition.Equals ∧
            ((sorted_left_table.getD cluster_number []).isEmpty ∨
             (sorted_right_table.getD cluster_number []).isEmpty) then
          ([] : PairList)
        else
          joinClusterPairs op mode sorted_left_table sorted_right_table
            (_end_of_table sorted_left_table) (_end_of_table sorted_right_table)
            cluster_number)).map toJoinOutput := by
    rw [List.map_map]
    apply List.map_congr_left
    intro cluster_number _
    simp only [Function.comp]
    split_ifs
    · rfl
    · exact join_cluster_toOutput op mode h1 h2 _ _ _ _ _ _
  rw [houts]
  split_ifs <;>
    simp only [left_outer_non_equi_toOutput, right_outer_non_equi_toOutput]

theorem null_row_patch_toOutput (mode : JoinMode)
    (null_rows_left null_rows_right : List RowID) (outputs : List PairList) :
    nullRowPatch mode null_rows_left null_rows_right (outputs.map toJoinOutput) =
      (nullRowPatchPairs mode null_rows_left null_rows_right outputs).map toJoinOutput := by
  simp only [nullRowPatch, nullRowPatchPairs]
  split_ifs <;>
    simp [toJoinOutput, List.map_append, List.map_map, Function.comp_def]

/-- C10: for every sort-merge join in a mode other than Semi and Anti, after
the merge phase (per-cluster merging, outer non-equi patches and the
null-row patch) the left and right output position lists of every output
cluster are the two projections of one list of join-partner pairs (one pair
per `_emit_combination` call, with `NULL_ROW_ID` as outer padding); in
particular they have equal length, and the entry at index r of the left list
is the partner of the entry at index r of the right list. -/
theorem sort_merge_output_pos_lists_paired {α : Type} [LinearOrder α]
    (op : PredicateCondition) (mode : JoinMode)
    (sorted_left_table sorted_right_table : MaterializedSegmentList α)
    (left_accessor : RowID → α) (cluster_count : Nat)
    (null_rows_left null_rows_right : List RowID)
    (h1 : mode ≠ JoinMode.Semi) (h2 : mode ≠ JoinMode.Anti) :
    sortMergeMergePhase op mode sorted_left_table sorted_right_table left_accessor
        cluster_count null_rows_left null_rows_right =
      (sortMergeMergePhasePairs op mode sorted_left_table sorted_right_table
        cluster_count null_rows_left null_rows_right).map toJoinOutput ∧
    ∀ out ∈ sortMergeMergePhase op mode sorted_left_table sorted_right_table left_accessor
        cluster_count null_rows_left null_rows_right,
      out.left.length = out.right.length := by
  have hmain : sortMergeMergePhase op mode sorted_left_table sorted_right_table left_accessor
      cluster_count null_rows_left null_rows_right =
      (sortMergeMergePhasePairs op mode sorted_left_table sorted_right_table
        cluster_count null_rows_left null_rows_right).map toJoinOutput := by
    unfold sortMergeMergePhase sortMergeMergePhasePairs
    rw [perform_join_toOutput op mode h1 h2, null_row_patch_toOutput]
  refine ⟨hmain, ?_⟩
  intro out hout
  rw [hmain] at hout
  obtain ⟨pairs, _, rfl⟩ := List.mem_map.mp hout
  simp [toJoinOutput]

/-- C10 witness: the theorem applied to a concrete left-outer equi join with
one cluster and one null row on the left. -/
theorem sort_merge_output_pos_lists_paired_witness :
    sortMergeMergePhase (α := Int) .Equals .Left [[⟨1, ⟨0, 0⟩⟩]] [[⟨1, ⟨1, 0⟩⟩]]
        (fun _ => 1) 1 [⟨0, 5⟩] [] =
      (sortMergeMergePhasePairs (α := Int) .Equals .Left [[⟨1, ⟨0, 0⟩⟩]] [[⟨1, ⟨1, 0⟩⟩]]
        1 [⟨0, 5⟩] []).map toJoinOutput :=
  (sort_merge_output_pos_lists_paired .Equals .Left [[⟨1, ⟨0, 0⟩⟩]] [[⟨1, ⟨1, 0⟩⟩]]
    (fun _ => 1) 1 [⟨0, 5⟩] [] (by decide) (by decide)).1

/-! ### Semi/Anti partition of the left rows (claim C8) -/

theorem rowIds_single_cluster {α : Type} (table : MaterializedSegmentList α)
    (c a b : Nat) :
    TableRange.rowIds ⟨⟨c, a⟩, ⟨c, b⟩⟩ table =
      (((table.getD c []).drop a).take (b - a)).map (·.row_id) := by
  unfold TableRange.rowIds
  simp [show List.range 1 = [0] from rfl]

theorem compare_eq_equal_iff {α : Type} [LinearOrder α] (a b : α) :
    _compare a b = .Equal ↔ a = b := by
  unfold _compare
  split_ifs with h1 h2
  · simp [h1.ne]
  · simp [h2]
  · simp [h2]

theorem compare_eq_less_iff {α : Type} [LinearOrder α] (a b : α) :
    _compare a b = .Less ↔ a < b := by
  unfold _compare
  split_ifs with h1 h2
  · simp [h1]
  · simp [h2]
  · simp [h1]

theorem compare_eq_greater_iff {α : Type} [LinearOrder α] (a b : α) :
    _compare a b = .Greater ↔ b < a := by
  unfold _compare
  split_ifs with h1 h2
  · simp [h1.asymm]
  · simp [h2]
  · simp only [true_iff]
    exact lt_of_le_of_ne (le_of_not_lt h1) (Ne.symm h2)

/-- The value ordering on materialized values used for sortedness. -/
def valueLE {α : Type} [LinearOrder α] (a b : MaterializedValue α) : Prop :=
  a.value ≤ b.value

theorem run_length_eq {α : Type} [LinearOrder α] (n : Nat)
    (l : MaterializedSegment α) (x : MaterializedValue α) (tl : MaterializedSegment α)
    (hld : l.drop n = x :: tl) :
    _run_length n l =
      ((x :: tl).takeWhile (fun y => !(decide (x.value < y.value)))).length := by
  unfold _run_length
  rw [hld]

theorem run_length_pos {α : Type} [LinearOrder α] (n : Nat)
    (l : MaterializedSegment α) (h : n < l.length) : 1 ≤ _run_length n l := by
  rw [run_length_eq n l _ _ (List.drop_eq_getElem_cons h)]
  rw [List.takeWhile_cons]
  simp

theorem run_length_le {α : Type} [LinearOrder α] (n : Nat)
    (l : MaterializedSegment α) : _run_length n l ≤ l.length - n := by
  rcases hld : l.drop n with _ | ⟨x, tl⟩
  · unfold _run_length
    rw [hld]
    exact Nat.zero_le _
  · rw [run_length_eq n l x tl hld]
    have := (List.takeWhile_prefix
      (fun y : MaterializedValue α => !(decide (x.value < y.value)))
      (l := x :: tl)).sublist.length_le
    calc _ ≤ (x :: tl).length := this
    _ = (l.drop n).length := by rw [hld]
    _ = l.length - n := List.length_drop n l

theorem run_take_values {α : Type} [LinearOrder α] {n : Nat}
    {l : MaterializedSegment α} (h : n < l.length)
    (hsort : List.Sorted (valueLE (α := α)) l) :
    ∀ mv ∈ (l.drop n).take (_run_length n l), mv.value = l[n].value := by
  intro mv hmv
  have hld := List.drop_eq_getElem_cons h
  have hk : _run_length n l =
      ((l[n] :: l.drop (n + 1)).takeWhile
        (fun y => !(decide (l[n].value < y.value)))).length :=
    run_length_eq n l _ _ hld
  rw [hld, hk, ← List.prefix_iff_eq_take.mp (List.takeWhile_prefix _)] at hmv
  have hle : ¬ (l[n].value < mv.value) := by
    simpa using List.mem_takeWhile_imp hmv
  have hge : l[n].value ≤ mv.value := by
    have hsort' : List.Sorted (valueLE (α := α)) (l[n] :: l.drop (n + 1)) := by
      rw [← hld]
      exact List.Pairwise.sublist (List.drop_sublist n l) hsort
    have hmem : mv ∈ l[n] :: l.drop (n + 1) :=
      (List.takeWhile_prefix _).subset hmv
    rcases hmem with _ | hmem'
    · exact le_refl _
    · exact (List.sorted_cons.mp hsort').1 mv (by assumption)
  exact le_antisymm (not_lt.mp hle) hge

theorem run_drop_decompose {α : Type} [LinearOrder α] (n : Nat)
    (l : MaterializedSegment α) :
    l.drop n = (l.drop n).take (_run_length n l) ++ l.drop (n + _run_length n l) := by
  rw [← List.drop_drop, List.take_append_drop]

theorem dropWhile_cons_prop {α : Type} (p : α → Bool) (l : List α)
    (h0 : α) (tl0 : List α) (h : l.dropWhile p = h0 :: tl0) : p h0 = false := by
  induction l with
  | nil => cases h
  | cons x xs ih =>
      rw [List.dropWhile_cons] at h
      by_cases hx : p x
      · rw [if_pos hx] at h
        exact ih h
      · rw [if_neg hx] at h
        injection h with hh _
        rw [← hh]
        rw [Bool.not_eq_true] at hx
        exact hx

theorem run_drop_values {α : Type} [LinearOrder α] {n : Nat}
    {l : MaterializedSegment α} (h : n < l.length)
    (hsort : List.Sorted (valueLE (α := α)) l) :
    ∀ mv ∈ l.drop (n + _run_length n l), l[n].value < mv.value := by
  intro mv hmv
  have hld := List.drop_eq_getElem_cons h
  set p : MaterializedValue α → Bool := fun y => !(decide (l[n].value < y.value)) with hp
  have hk : _run_length n l = ((l[n] :: l.drop (n + 1)).takeWhile p).length :=
    run_length_eq n l _ _ hld
  have hdw : l.drop (n + _run_length n l) =
      (l[n] :: l.drop (n + 1)).dropWhile p := by
    rw [← List.drop_drop, hld, hk]
    nth_rewrite 2 [← List.takeWhile_append_dropWhile (p := p)
      (l := l[n] :: l.drop (n + 1))]
    exact List.drop_left _ _
  rw [hdw] at hmv
  rcases hdw2 : (l[n] :: l.drop (n + 1)).dropWhile p with _ | ⟨h0, tl0⟩
  · rw [hdw2] at hmv; cases hmv
  · rw [hdw2] at hmv
    have hh0 : l[n].value < h0.value := by
      have := dropWhile_cons_prop p (l[n] :: l.drop (n + 1)) h0 tl0 hdw2
      simpa [hp] using this
    have hsort0 : List.Sorted (valueLE (α := α)) (h0 :: tl0) := by
      rw [← hdw2]
      exact List.Pairwise.sublist
        ((List.dropWhile_sublist p).trans (by rw [← hld]; exact List.drop_sublist n l))
        hsort
    rcases hmv with _ | hmv'
    · exact hh0
    · exact lt_of_lt_of_le hh0 ((List.sorted_cons.mp hsort0).1 mv (by assumption))

theorem remove_row_ids_go_nil_matches {α : Type} [LinearOrder α]
    (left_accessor : RowID → α) (input : MaterializedSegment α) :
    _remove_row_ids_go left_accessor input [] = input.map (·.row_id) := by
  cases input <;> rfl

theorem remove_row_ids_go_cons_cons {α : Type} [LinearOrder α]
    (left_accessor : RowID → α) (i : MaterializedValue α) (is : MaterializedSegment α)
    (m : RowID) (ms : List RowID) :
    _remove_row_ids_go left_accessor (i :: is) (m :: ms) =
      if i.value = left_accessor m then _remove_row_ids_go left_accessor is ms
      else if i.value < left_accessor m then
        i.row_id :: _remove_row_ids_go left_accessor is (m :: ms)
      else (i :: is).map (·.row_id) := rfl

theorem remove_row_ids_go_filter {α : Type} [LinearOrder α] (left_accessor : RowID → α)
    (Q : α → Bool) :
    ∀ l : MaterializedSegment α,
      List.Sorted (valueLE (α := α)) l →
      (∀ mv ∈ l, left_accessor mv.row_id = mv.value) →
      _remove_row_ids_go left_accessor l
          ((l.filter (fun mv => Q mv.value)).map (·.row_id)) =
        (l.filter (fun mv => !(Q mv.value))).map (·.row_id) := by
  intro l
  induction l with
  | nil => intro _ _; rfl
  | cons i is ih =>
      intro hsort hacc
      have hple := (List.sorted_cons.mp hsort).1
      have hsort' := (List.sorted_cons.mp hsort).2
      have hacci : left_accessor i.row_id = i.value := hacc i (List.mem_cons_self _ _)
      have hacc' : ∀ mv ∈ is, left_accessor mv.row_id = mv.value :=
        fun mv hm => hacc mv (List.mem_cons_of_mem _ hm)
      by_cases hQi : Q i.value
      · rw [List.filter_cons_of_pos (by simpa using hQi), List.map_cons,
          List.filter_cons_of_neg (by simpa using hQi)]
        rw [remove_row_ids_go_cons_cons, if_pos hacci.symm]
        exact ih hsort' hacc'
      · rw [List.filter_cons_of_neg (by simpa using hQi),
          List.filter_cons_of_pos (by simpa using hQi), List.map_cons]
        rcases hfis : is.filter (fun mv => Q mv.value) with _ | ⟨e, es⟩
        · have hall : ∀ mv ∈ is, ¬ Q mv.value = true := List.filter_eq_nil_iff.mp hfis
          rw [hfis, List.map_nil, remove_row_ids_go_nil_matches, List.map_cons,
            List.filter_eq_self.mpr (fun a ha => by simpa using hall a ha)]
        · have he_mem : e ∈ is :=
            List.mem_of_mem_filter (by rw [hfis]; exact List.mem_cons_self _ _)
          have hQe : Q e.value = true := by
            have he2 : e ∈ is.filter (fun mv => Q mv.value) := by
              rw [hfis]; exact List.mem_cons_self _ _
            simpa using List.of_mem_filter he2
          have hacce : left_accessor e.row_id = e.value := hacc' e he_mem
          have hne : i.value ≠ e.value := by
            intro hv
            rw [hv] at hQi
            exact hQi hQe
          have hlt : i.value < e.value := lt_of_le_of_ne (hple e he_mem) hne
          have hmatches : e.row_id :: List.map (fun x => x.row_id) es =
              (is.filter (fun mv => Q mv.value)).map (fun x => x.row_id) := by
            rw [hfis, List.map_cons]
          rw [hfis, List.map_cons, remove_row_ids_go_cons_cons,
            if_neg (by rw [hacce]; exact hne), if_pos (by rw [hacce]; exact hlt),
            hmatches, ih hsort' hacc']

theorem remove_row_ids_filter {α : Type} [LinearOrder α] (left_accessor : RowID → α)
    (Q : α → Bool) (l : MaterializedSegment α)
    (hsort : List.Sorted (valueLE (α := α)) l)
    (hacc : ∀ mv ∈ l, left_accessor mv.row_id = mv.value) :
    _remove_row_ids_from_materialized_segment left_accessor
        ((l.filter (fun mv => Q mv.value)).map (·.row_id)) l =
      (l.filter (fun mv => !(Q mv.value))).map (·.row_id) := by
  unfold _remove_row_ids_from_materialized_segment
  split_ifs with h
  · have hfil : l.filter (fun mv => Q mv.value) = [] := by
      have := List.isEmpty_iff.mp h
      exact List.map_eq_nil_iff.mp this
    have hall : ∀ mv ∈ l, ¬ Q mv.value = true := List.filter_eq_nil_iff.mp hfil
    rw [List.filter_eq_self.mpr (fun a ha => by simpa using hall a ha)]
  · exact remove_row_ids_go_filter left_accessor Q l hsort hacc

theorem head_min_of_sorted {α : Type} [LinearOrder α] {n : Nat}
    {l : MaterializedSegment α} (h : n < l.length)
    (hsort : List.Sorted (valueLE (α := α)) l) :
    ∀ mv ∈ l.drop n, l[n].value ≤ mv.value := by
  intro mv hmv
  have hld := List.drop_eq_getElem_cons h
  have hsort' : List.Sorted (valueLE (α := α)) (l[n] :: l.drop (n + 1)) := by
    rw [← hld]
    exact List.Pairwise.sublist (List.drop_sublist n l) hsort
  rw [hld] at hmv
  rcases hmv with _ | hmv'
  · exact le_refl _
  · exact (List.sorted_cons.mp hsort').1 mv (by assumption)

theorem join_cluster_loop_semi_filter {α : Type} [LinearOrder α] (mode : JoinMode)
    (hmode : mode = JoinMode.Semi ∨ mode = JoinMode.Anti)
    (sorted_left_table sorted_right_table : MaterializedSegmentList α)
    (end_of_left_table end_of_right_table : TablePosition) (c : Nat)
    (lc rc : MaterializedSegment α)
    (hsl : sorted_left_table.getD c [] = lc)
    (hsortL : List.Sorted (valueLE (α := α)) lc)
    (hsortR : List.Sorted (valueLE (α := α)) rc) :
    ∀ (fuel ls rs : Nat) (out : JoinOutput),
      lc.length - ls + (rc.length - rs) ≤ fuel →
      ((_join_cluster_loop .Equals mode sorted_left_table sorted_right_table
          end_of_left_table end_of_right_table c lc rc fuel ls rs out).2.2.left =
        out.left ++ ((lc.drop ls).filter
          (fun mv => (rc.drop rs).any (fun rv => rv.value = mv.value))).map (·.row_id)) ∧
      (_join_cluster_loop .Equals mode sorted_left_table sorted_right_table
          end_of_left_table end_of_right_table c lc rc fuel ls rs out).2.2.right =
        out.right := by
  have hmode_cond : ¬ (mode ≠ JoinMode.Semi ∧ mode ≠ JoinMode.Anti) := by
    rcases hmode with h | h <;> simp [h]
  have hmode_lo : ¬ (mode = JoinMode.Left ∨ mode = JoinMode.Outer) := by
    rcases hmode with h | h <;> simp [h]
  have hmode_ro : ¬ (mode = JoinMode.Right ∨ mode = JoinMode.Outer) := by
    rcases hmode with h | h <;> simp [h]
  intro fuel
  induction fuel with
  | zero =>
      intro ls rs out hfuel
      have hls : lc.length ≤ ls := by omega
      rw [List.drop_eq_nil_of_le hls]
      constructor
      · show out.left = _
        simp
      · rfl
  | succ fuel ih =>
      intro ls rs out hfuel
      rw [_join_cluster_loop]
      by_cases h : ls < lc.length ∧ rs < rc.length
      · rw [dif_pos h]
        have hrunL_pos := run_length_pos ls lc h.1
        have hrunL_le := run_length_le (α := α) ls lc
        have hrunR_pos := run_length_pos rs rc h.2
        have hrunR_le := run_length_le (α := α) rs rc
        have hldL := List.drop_eq_getElem_cons h.1
        have hldR := List.drop_eq_getElem_cons h.2
        rcases hcmp : _compare (lc.get ⟨ls, h.1⟩).value (rc.get ⟨rs, h.2⟩).value
          with _ | _ | _
        · -- Less : left run value < right run value; advance the left run
          have hlt : lc[ls].value < rc[rs].value := by
            have := (compare_eq_less_iff _ _).mp hcmp
            simpa [List.get_eq_getElem] using this
          simp only [hcmp]
          have hout2 : _join_runs PredicateCondition.Equals mode sorted_left_table
              sorted_right_table end_of_left_table end_of_right_table out
              ⟨⟨c, ls⟩, ⟨c, ls + _run_length ls lc⟩⟩
              ⟨⟨c, rs⟩, ⟨c, rs + _run_length rs rc⟩⟩ CompareResult.Less = out := by
            simp only [_join_runs]
            rw [if_neg hmode_lo]
          rw [hout2]
          have hm1 : lc.length - (ls + _run_length ls lc) + (rc.length - rs) ≤ fuel := by
            omega
          have hrec := ih (ls + _run_length ls lc) rs out hm1
          refine ⟨?_, hrec.2⟩
          rw [hrec.1]
          congr 1
          rw [run_drop_decompose ls lc, List.filter_append]
          have hrun_nil : ((lc.drop ls).take (_run_length ls lc)).filter
              (fun mv => (rc.drop rs).any (fun rv => rv.value = mv.value)) = [] := by
            rw [List.filter_eq_nil_iff]
            intro mv hmv
            have hval : mv.value = lc[ls].value := run_take_values h.1 hsortL mv hmv
            simp only [List.any_eq_true, not_exists, not_and, decide_eq_true_eq]
            intro rv hrv hveq
            have hge : rc[rs].value ≤ rv.value := head_min_of_sorted h.2 hsortR rv hrv
            have hrv2 : rv.value = lc[ls].value := by rw [hveq, hval]
            rw [hrv2] at hge
            exact absurd hge (not_le.mpr hlt)
          rw [hrun_nil, List.nil_append]
        · -- Greater : right run value < left run value; advance the right run
          have hgt : rc[rs].value < lc[ls].value := by
            have := (compare_eq_greater_iff _ _).mp hcmp
            simpa [List.get_eq_getElem] using this
          simp only [hcmp]
          have hout2 : _join_runs PredicateCondition.Equals mode sorted_left_table
              sorted_right_table end_of_left_table end_of_right_table out
              ⟨⟨c, ls⟩, ⟨c, ls + _run_length ls lc⟩⟩
              ⟨⟨c, rs⟩, ⟨c, rs + _run_length rs rc⟩⟩ CompareResult.Greater = out := by
            simp only [_join_runs]
            rw [if_neg hmode_ro]
          rw [hout2]
          have hm2 : lc.length - ls + (rc.length - (rs + _run_length rs rc)) ≤ fuel := by
            omega
          have hrec := ih ls (rs + _run_length rs rc) out hm2
          refine ⟨?_, hrec.2⟩
          rw [hrec.1]
          congr 2
          apply List.filter_congr
          intro mv hmv
          have hmin : lc[ls].value ≤ mv.value := head_min_of_sorted h.1 hsortL mv hmv
          conv_rhs => rw [run_drop_decompose rs rc]
          rw [List.any_append]
          have hRR : ((rc.drop rs).take (_run_length rs rc)).any
              (fun rv => rv.value = mv.value) = false := by
            rw [List.any_eq_false]
            intro rv hrv
            have hval : rv.value = rc[rs].value := run_take_values h.2 hsortR rv hrv
            simp only [decide_eq_true_eq]
            rw [hval]
            exact (lt_of_lt_of_le hgt hmin).ne
          rw [hRR, Bool.false_or]
        · -- Equal : emit the left run (Semi/Anti branch), advance both runs
          have heq : lc[ls].value = rc[rs].value := by
            have := (compare_eq_equal_iff _ _).mp hcmp
            simpa [List.get_eq_getElem] using this
          simp only [hcmp]
          have hout2 : _join_runs PredicateCondition.Equals mode sorted_left_table
              sorted_right_table end_of_left_table end_of_right_table out
              ⟨⟨c, ls⟩, ⟨c, ls + _run_length ls lc⟩⟩
              ⟨⟨c, rs⟩, ⟨c, rs + _run_length rs rc⟩⟩ CompareResult.Equal =
              ⟨out.left ++ TableRange.rowIds ⟨⟨c, ls⟩, ⟨c, ls + _run_length ls lc⟩⟩
                sorted_left_table, out.right⟩ := by
            simp only [_join_runs, _emit_all_combinations]
            rw [if_neg hmode_cond]
          rw [hout2]
          have hrowids : TableRange.rowIds ⟨⟨c, ls⟩, ⟨c, ls + _run_length ls lc⟩⟩
              sorted_left_table = ((lc.drop ls).take (_run_length ls lc)).map (·.row_id) := by
            rw [rowIds_single_cluster, hsl, Nat.add_sub_cancel_left]
          have hm3 : lc.length - (ls + _run_length ls lc) +
              (rc.length - (rs + _run_length rs rc)) ≤ fuel := by
            omega
          have hrec := ih (ls + _run_length ls lc) (rs + _run_length rs rc)
            ⟨out.left ++ TableRange.rowIds ⟨⟨c, ls⟩, ⟨c, ls + _run_length ls lc⟩⟩
              sorted_left_table, out.right⟩ hm3
          refine ⟨?_, hrec.2⟩
          rw [hrec.1]
          show (out.left ++ _) ++ _ = _
          rw [hrowids, List.append_assoc]
          congr 1
          conv_rhs => rw [run_drop_decompose ls lc]
          rw [List.filter_append, List.map_append]
          congr 1
          · rw [List.filter_eq_self.mpr]
            intro mv hmv
            have hval : mv.value = lc[ls].value := run_take_values h.1 hsortL mv hmv
            rw [hldR]
            simp only [List.any_cons, Bool.or_eq_true, decide_eq_true_eq]
            exact Or.inl (by rw [hval, heq])
          · congr 1
            apply List.filter_congr
            intro mv hmv
            have hgtv : lc[ls].value < mv.value := run_drop_values h.1 hsortL mv hmv
            conv_rhs => rw [run_drop_decompose rs rc]
            rw [List.any_append]
            have hRR : ((rc.drop rs).take (_run_length rs rc)).any
                (fun rv => rv.value = mv.value) = false := by
              rw [List.any_eq_false]
              intro rv hrv
              have hval : rv.value = rc[rs].value := run_take_values h.2 hsortR rv hrv
              simp only [decide_eq_true_eq]
              rw [hval, ← heq]
              exact hgtv.ne
            rw [hRR, Bool.false_or]
      · rw [dif_neg h]
        rcases not_and_or.mp h with hls | hrs
        · have hnil : lc.drop ls = [] := List.drop_eq_nil_of_le (by omega)
          rw [hnil]
          constructor
          · show out.left = _
            simp
          · rfl
        · have : rc.drop rs = [] := List.drop_eq_nil_of_le (by omega)
          rw [this]
          refine ⟨?_, rfl⟩
          have : (lc.drop ls).filter
              (fun mv => (List.nil.any (fun rv : MaterializedValue α =>
                rv.value = mv.value))) = [] := by
            rw [List.filter_eq_nil_iff]
            intro a _
            simp
          rw [this]
          simp

theorem join_cluster_equals_semi_anti {α : Type} [LinearOrder α] (mode : JoinMode)
    (hmode : mode = JoinMode.Semi ∨ mode = JoinMode.Anti)
    (sorted_left_table sorted_right_table : MaterializedSegmentList α)
    (end_of_left_table end_of_right_table : TablePosition)
    (left_accessor : RowID → α) (c : Nat)
    (hsortL : List.Sorted (valueLE (α := α)) (sorted_left_table.getD c []))
    (hsortR : List.Sorted (valueLE (α := α)) (sorted_right_table.getD c [])) :
    _join_cluster .Equals mode sorted_left_table sorted_right_table
        end_of_left_table end_of_right_table left_accessor c =
      if mode = JoinMode.Anti then
        ⟨_remove_row_ids_from_materialized_segment left_accessor
          (((sorted_left_table.getD c []).filter
            (fun mv => (sorted_right_table.getD c []).any
              (fun rv => rv.value = mv.value))).map (·.row_id))
          (sorted_left_table.getD c []), []⟩
      else
        ⟨((sorted_left_table.getD c []).filter
            (fun mv => (sorted_right_table.getD c []).any
              (fun rv => rv.value = mv.value))).map (·.row_id), []⟩ := by
  have hmode_lo : ¬ (mode = JoinMode.Left ∨ mode = JoinMode.Outer) := by
    rcases hmode with h | h <;> simp [h]
  have hmode_ro : ¬ (mode = JoinMode.Right ∨ mode = JoinMode.Outer) := by
    rcases hmode with h | h <;> simp [h]
  have hloop := join_cluster_loop_semi_filter mode hmode sorted_left_table
    sorted_right_table end_of_left_table end_of_right_table c
    (sorted_left_table.getD c []) (sorted_right_table.getD c []) rfl hsortL hsortR
    ((sorted_left_table.getD c []).length + (sorted_right_table.getD c []).length)
    0 0 ⟨[], []⟩ (by omega)
  simp only [List.drop_zero] at hloop
  simp only [_join_cluster]
  have hout2 : ∀ (lrest rrest : TableRange) (cr : CompareResult), cr ≠ .Equal →
      ∀ out : JoinOutput, _join_runs PredicateCondition.Equals mode sorted_left_table
        sorted_right_table end_of_left_table end_of_right_table out lrest rrest cr = out := by
    intro lrest rrest cr hcr out
    cases cr
    · simp only [_join_runs]
      rw [if_neg hmode_lo]
    · simp only [_join_runs]
      rw [if_neg hmode_ro]
    · exact absurd rfl hcr
  set res := _join_cluster_loop PredicateCondition.Equals mode sorted_left_table
    sorted_right_table end_of_left_table end_of_right_table c
    (sorted_left_table.getD c []) (sorted_right_table.getD c [])
    ((sorted_left_table.getD c []).length + (sorted_right_table.getD c []).length)
    0 0 ⟨[], []⟩ with hres
  have houtleft : res.2.2.left = ((sorted_left_table.getD c []).filter
      (fun mv => (sorted_right_table.getD c []).any
        (fun rv => rv.value = mv.value))).map (·.row_id) := by
    rw [hloop.1]
    simp
  have houtright : res.2.2.right = [] := hloop.2
  have hfull : res.2.2 = (⟨((sorted_left_table.getD c []).filter
      (fun mv => (sorted_right_table.getD c []).any
        (fun rv => rv.value = mv.value))).map (·.row_id), []⟩ : JoinOutput) := by
    rcases hE : res.2.2 with ⟨l, r⟩
    rw [hE] at houtleft houtright
    simp only at houtleft houtright
    rw [houtleft, houtright]
  split_ifs <;>
    (try rw [hout2 _ _ _ (by simp) res.2.2]) <;>
    rw [hfull]

/-- C8: for every materialized cluster pair of an equality sort-merge join
(join-column values sorted, left row ids distinct, segment accessor
consistent with the materialization), the rows produced by the Semi join and
the rows produced by the Anti join are disjoint subsets of the left cluster
rows whose sizes sum to the cluster size:
`|Semi(L,R)| + |Anti(L,R)| = |L|`. -/
theorem semi_anti_partition_left_rows {α : Type} [LinearOrder α]
    (sorted_left_table sorted_right_table : MaterializedSegmentList α)
    (end_of_left_table end_of_right_table : TablePosition)
    (left_accessor : RowID → α) (c : Nat)
    (hsortL : List.Sorted (valueLE (α := α)) (sorted_left_table.getD c []))
    (hsortR : List.Sorted (valueLE (α := α)) (sorted_right_table.getD c []))
    (hacc : ∀ mv ∈ sorted_left_table.getD c [], left_accessor mv.row_id = mv.value)
    (hnodup : ((sorted_left_table.getD c []).map (·.row_id)).Nodup) :
    ((_join_cluster .Equals .Semi sorted_left_table sorted_right_table
        end_of_left_table end_of_right_table left_accessor c).left.length +
      (_join_cluster .Equals .Anti sorted_left_table sorted_right_table
        end_of_left_table end_of_right_table left_accessor c).left.length =
      (sorted_left_table.getD c []).length) ∧
    (_join_cluster .Equals .Semi sorted_left_table sorted_right_table
        end_of_left_table end_of_right_table left_accessor c).left.Disjoint
      (_join_cluster .Equals .Anti sorted_left_table sorted_right_table
        end_of_left_table end_of_right_table left_accessor c).left ∧
    (∀ r ∈ (_join_cluster .Equals .Semi sorted_left_table sorted_right_table
        end_of_left_table end_of_right_table left_accessor c).left,
      r ∈ (sorted_left_table.getD c []).map (·.row_id)) ∧
    (∀ r ∈ (_join_cluster .Equals .Anti sorted_left_table sorted_right_table
        end_of_left_table end_of_right_table left_accessor c).left,
      r ∈ (sorted_left_table.getD c []).map (·.row_id)) := by
  have hsemi := join_cluster_equals_semi_anti .Semi (Or.inl rfl) sorted_left_table
    sorted_right_table end_of_left_table end_of_right_table left_accessor c hsortL hsortR
  have hanti := join_cluster_equals_semi_anti .Anti (Or.inr rfl) sorted_left_table
    sorted_right_table end_of_left_table end_of_right_table left_accessor c hsortL hsortR
  rw [if_neg (by decide)] at hsemi
  rw [if_pos rfl] at hanti
  have hsemileft : (_join_cluster .Equals .Semi sorted_left_table sorted_right_table
      end_of_left_table end_of_right_table left_accessor c).left =
      ((sorted_left_table.getD c []).filter
        (fun mv => (sorted_right_table.getD c []).any
          (fun rv => rv.value = mv.value))).map (·.row_id) := by
    rw [hsemi]
  have hantileft : (_join_cluster .Equals .Anti sorted_left_table sorted_right_table
      end_of_left_table end_of_right_table left_accessor c).left =
      ((sorted_left_table.getD c []).filter
        (fun mv => !((sorted_right_table.getD c []).any
          (fun rv => rv.value = mv.value)))).map (·.row_id) := by
    rw [hanti]
    show _remove_row_ids_from_materialized_segment left_accessor
      (((sorted_left_table.getD c []).filter
        (fun mv => (fun v => (sorted_right_table.getD c []).any
          (fun rv => rv.value = v)) mv.value)).map (·.row_id))
      (sorted_left_table.getD c []) = _
    exact remove_row_ids_filter left_accessor
      (fun v => (sorted_right_table.getD c []).any (fun rv => rv.value = v))
      (sorted_left_table.getD c []) hsortL hacc
  rw [hsemileft, hantileft]
  have hperm : (((sorted_left_table.getD c []).filter
        (fun mv => (sorted_right_table.getD c []).any
          (fun rv => rv.value = mv.value))).map (·.row_id) ++
      ((sorted_left_table.getD c []).filter
        (fun mv => !((sorted_right_table.getD c []).any
          (fun rv => rv.value = mv.value)))).map (·.row_id)).Perm
      ((sorted_left_table.getD c []).map (·.row_id)) := by
    rw [← List.map_append]
    exact (List.filter_append_perm _ _).map _
  refine ⟨?_, ?_, ?_, ?_⟩
  · have := hperm.length_eq
    simpa [List.length_append] using this
  · have hnd : (((sorted_left_table.getD c []).filter
        (fun mv => (sorted_right_table.getD c []).any
          (fun rv => rv.value = mv.value))).map (·.row_id) ++
      ((sorted_left_table.getD c []).filter
        (fun mv => !((sorted_right_table.getD c []).any
          (fun rv => rv.value = mv.value)))).map (·.row_id)).Nodup :=
      hperm.nodup_iff.mpr hnodup
    exact (List.nodup_append.mp hnd).2.2
  · intro r hr
    exact hperm.mem_iff.mp (List.mem_append_left _ hr)
  · intro r hr
    exact hperm.mem_iff.mp (List.mem_append_right _ hr)

/-- C8 witness: the theorem applied to the concrete cluster
`left = [(1,(0,0)), (2,(0,1))]`, `right = [(2,(1,0))]`: the semi join keeps
row (0,1), the anti join keeps row (0,0). -/
theorem semi_anti_partition_left_rows_witness :
    ((_join_cluster (α := Int) .Equals .Semi [[⟨1, ⟨0, 0⟩⟩, ⟨2, ⟨0, 1⟩⟩]] [[⟨2, ⟨1, 0⟩⟩]]
        ⟨0, 2⟩ ⟨0, 1⟩ (fun r => if r = ⟨0, 0⟩ then 1 else 2) 0).left.length +
      (_join_cluster (α := Int) .Equals .Anti [[⟨1, ⟨0, 0⟩⟩, ⟨2, ⟨0, 1⟩⟩]] [[⟨2, ⟨1, 0⟩⟩]]
        ⟨0, 2⟩ ⟨0, 1⟩ (fun r => if r = ⟨0, 0⟩ then 1 else 2) 0).left.length = 2) ∧
    (_join_cluster (α := Int) .Equals .Semi [[⟨1, ⟨0, 0⟩⟩, ⟨2, ⟨0, 1⟩⟩]] [[⟨2, ⟨1, 0⟩⟩]]
        ⟨0, 2⟩ ⟨0, 1⟩ (fun r => if r = ⟨0, 0⟩ then 1 else 2) 0).left.Disjoint
      (_join_cluster (α := Int) .Equals .Anti [[⟨1, ⟨0, 0⟩⟩, ⟨2, ⟨0, 1⟩⟩]] [[⟨2, ⟨1, 0⟩⟩]]
        ⟨0, 2⟩ ⟨0, 1⟩ (fun r => if r = ⟨0, 0⟩ then 1 else 2) 0).left := by
  have h := semi_anti_partition_left_rows (α := Int)
    [[⟨1, ⟨0, 0⟩⟩, ⟨2, ⟨0, 1⟩⟩]] [[⟨2, ⟨1, 0⟩⟩]] ⟨0, 2⟩ ⟨0, 1⟩
    (fun r => if r = ⟨0, 0⟩ then 1 else 2) 0
    (by simp [valueLE]) (by simp [valueLE]) (by decide) (by decide)
  exact ⟨h.1, h.2.1⟩

/-! ### Output assembly: reference segments over data tables (claim C9) -/

/-- `TableType`. -/
inductive TableType where
  | Data | References
deriving DecidableEq, Repr

mutual
/-- A table: its `TableType`, its column count and its chunks, each chunk one
segment per column. -/
inductive HTable where
  | mk (ttype : TableType) (column_count : Nat) (chunks : List (List HSegment))

/-- A segment: a value segment, or a reference segment citing a referenced
table, a referenced column id and a position list. -/
inductive HSegment where
  | value (values : List AllTypeVariant)
  | reference (referenced_table : HTable) (referenced_column_id : Nat)
      (pos_list : List RowID)
end

/-- `Table::type`. -/
def HTable.ttype : HTable → TableType
  | .mk t _ _ => t

/-- `Table::column_count`. -/
def HTable.column_count : HTable → Nat
  | .mk _ cc _ => cc

/-- The chunks of a table. -/
def HTable.chunks : HTable → List (List HSegment)
  | .mk _ _ ch => ch

/-- `Table::chunk_count`. -/
def HTable.chunk_count (t : HTable) : Nat := t.chunks.length

/-- `Table::create_dummy_table`: an empty data table with the given column
definitions. -/
def create_dummy_table (column_count : Nat) : HTable :=
  .mk .Data column_count []

/-- Shallow embedding of `_dereference_pos_list` (part_002 lines 1232-1253):
collects the position list of every chunk's reference segment of the given
column (`none` models the failing dynamic cast on a non-reference segment)
and maps every row id of `pos_list` through them; a null row id stays
`NULL_ROW_ID`. -/
def _dereference_pos_list (input_table : HTable) (column_id : Nat)
    (pos_list : List RowID) : Option (List RowID) := do
  let input_pos_lists ← input_table.chunks.mapM (fun chunk =>
    match chunk.getD column_id (HSegment.value []) with
    | .reference _ _ pl => some pl
    | .value _ => none)
  some (pos_list.map (fun row =>
    if row.is_null then NULL_ROW_ID
    else (input_pos_lists.getD row.chunk_id []).getD row.chunk_offset NULL_ROW_ID))

/-- Shallow embedding of `_add_output_segments` (part_002 lines 1197-1226):
one reference segment per column; a reference input table is dereferenced
first (using the referenced table of the first chunk's segment; with zero
chunks, a dummy data table is referenced). -/
def _add_output_segments (output_segments : List HSegment) (input_table : HTable)
    (pos_list : List RowID) : Option (List HSegment) := do
  let new_segments ← (List.range input_table.column_count).mapM (fun column_id =>
    if input_table.ttype = TableType.References then do
      let new_pos_list ← _dereference_pos_list input_table column_id pos_list
      if 0 < input_table.chunk_count then
        match (input_table.chunks.getD 0 []).getD column_id (HSegment.value []) with
        | .reference referenced_table referenced_column_id _ =>
            some (HSegment.reference referenced_table referenced_column_id new_pos_list)
        | .value _ => none
      else
        some (HSegment.reference (create_dummy_table input_table.column_count)
          column_id pos_list)
    else
      some (HSegment.reference input_table column_id pos_list))
  some (output_segments ++ new_segments)

/-- Modelled from the spec: `write_output_segments` of the hash join lives in
`join_hash_steps.hpp`, which is not among the sources; per the
specification's output-assembly section, each column becomes a reference
segment over the input table, and a reference input is dereferenced against
the underlying data table first.  The `PosListsBySegment` cache is a memory
optimization without observable effect and is not modelled. -/
def write_output_segments (output_segments : List HSegment) (input_table : HTable)
    (pos_list : List RowID) : Option (List HSegment) := do
  let new_segments ← (List.range input_table.column_count).mapM (fun column_id =>
    if input_table.ttype = TableType.References then do
      let new_pos_list ← _dereference_pos_list input_table column_id pos_list
      match (input_table.chunks.getD 0 []).getD column_id (HSegment.value []) with
      | .reference referenced_table referenced_column_id _ =>
          some (HSegment.reference referenced_table referenced_column_id new_pos_list)
      | .value _ => none
    else
      some (HSegment.reference input_table column_id pos_list))
  some (output_segments ++ new_segments)

/-- Wellformedness of an input table: a `References` table holds only
reference segments citing data tables, a `Data` table holds only value
segments. -/
def HTable.wellformed (t : HTable) : Prop :=
  (t.ttype = TableType.References →
    ∀ chunk ∈ t.chunks, ∀ seg ∈ chunk,
      ∃ rt rc pl, seg = HSegment.reference rt rc pl ∧ rt.ttype = TableType.Data) ∧
  (t.ttype = TableType.Data →
    ∀ chunk ∈ t.chunks, ∀ seg ∈ chunk, ∃ vs, seg = HSegment.value vs)

theorem mem_of_mapM_option {α β : Type} (f : α → Option β) :
    ∀ (l : List α) (ys : List β), l.mapM f = some ys → ∀ y ∈ ys, ∃ x ∈ l, f x = some y := by
  intro l
  induction l with
  | nil =>
      intro ys h y hy
      simp only [List.mapM_nil, pure, Option.some.injEq] at h
      subst h
      cases hy
  | cons a l ih =>
      intro ys h y hy
      rw [List.mapM_cons] at h
      cases hfa : f a with
      | none => rw [hfa] at h; simp at h
      | some b =>
          rw [hfa] at h
          cases hrest : l.mapM f with
          | none => rw [hrest] at h; simp at h
          | some bs =>
              rw [hrest] at h
              simp only [Option.bind_eq_bind, Option.some_bind, pure,
                Option.some.injEq] at h
              subst h
              rcases hy with _ | hy'
              · exact ⟨a, List.mem_cons_self _ _, hfa⟩
              · obtain ⟨x, hx, hfx⟩ := ih bs hrest y (by assumption)
                exact ⟨x, List.mem_cons_of_mem _ hx, hfx⟩

theorem reference_match_references_data (input_table : HTable)
    (hwf : input_table.wellformed) (column_id : Nat) (seg : HSegment)
    (npl : List RowID) (href : input_table.ttype = TableType.References)
    (h2 : (match (input_table.chunks.getD 0 []).getD column_id (HSegment.value []) with
      | .reference referenced_table referenced_column_id _ =>
          some (HSegment.reference referenced_table referenced_column_id npl)
      | .value _ => none) = some seg) :
    ∃ rt rc pl, seg = HSegment.reference rt rc pl ∧ rt.ttype = TableType.Data := by
  rcases hseg0 : (input_table.chunks.getD 0 []).getD column_id (HSegment.value [])
    with vs | ⟨rt, rc, pl⟩
  · rw [hseg0] at h2
    cases h2
  · rw [hseg0] at h2
    obtain rfl := (Option.some.inj h2).symm
    refine ⟨rt, rc, npl, rfl, ?_⟩
    have hchunks_ne : input_table.chunks ≠ [] := by
      intro hnil
      rw [hnil] at hseg0
      cases hseg0
    have hchunk0 : input_table.chunks.getD 0 [] ∈ input_table.chunks := by
      rcases hc : input_table.chunks with _ | ⟨c0, cs⟩
      · exact absurd hc hchunks_ne
      · exact List.mem_cons_self _ _
    have hsegmem : HSegment.reference rt rc pl ∈ input_table.chunks.getD 0 [] := by
      by_cases hb : column_id < (input_table.chunks.getD 0 []).length
      · rw [← hseg0, List.getD_eq_getElem _ _ hb]
        exact List.getElem_mem hb
      · rw [List.getD_eq_default _ _ (by omega)] at hseg0
        cases hseg0
    obtain ⟨rt', rc', pl', heq, hdata⟩ := hwf.1 href _ hchunk0 _ hsegmem
    obtain ⟨rfl, -, -⟩ := HSegment.reference.inj heq
    exact hdata

/-- C9: every segment appended to the join output is a reference segment
citing a data table, never another reference segment: `_add_output_segments`
of the sort-merge join (from the source) and `write_output_segments` of the
hash join (modelled from the spec) produce, for a wellformed input table,
only reference segments whose referenced table has type `Data`. -/
theorem join_output_segments_reference_data (output_segments : List HSegment)
    (input_table : HTable) (pos_list : List RowID) (hwf : input_table.wellformed) :
    (∀ segs, _add_output_segments output_segments input_table pos_list = some segs →
      ∀ seg ∈ segs, seg ∈ output_segments ∨
        ∃ rt rc pl, seg = HSegment.reference rt rc pl ∧ rt.ttype = TableType.Data) ∧
    (∀ segs, write_output_segments output_segments input_table pos_list = some segs →
      ∀ seg ∈ segs, seg ∈ output_segments ∨
        ∃ rt rc pl, seg = HSegment.reference rt rc pl ∧ rt.ttype = TableType.Data) := by
  constructor
  · intro segs hsegs seg hseg
    unfold _add_output_segments at hsegs
    cases hm : (List.range input_table.column_count).mapM (fun column_id =>
        if input_table.ttype = TableType.References then do
          let new_pos_list ← _dereference_pos_list input_table column_id pos_list
          if 0 < input_table.chunk_count then
            match (input_table.chunks.getD 0 []).getD column_id (HSegment.value []) with
            | .reference referenced_table referenced_column_id _ =>
                some (HSegment.reference referenced_table referenced_column_id new_pos_list)
            | .value _ => none
          else
            some (HSegment.reference (create_dummy_table input_table.column_count)
              column_id pos_list)
        else
          some (HSegment.reference input_table column_id pos_list)) with
    | none =>
        rw [hm] at hsegs
        simp at hsegs
    | some new_segments =>
        rw [hm] at hsegs
        simp only [Option.bind_eq_bind, Option.some_bind, Option.some.injEq] at hsegs
        subst hsegs
        rcases List.mem_append.mp hseg with hl | hr
        · exact Or.inl hl
        · right
          obtain ⟨column_id, _, hcol⟩ := mem_of_mapM_option _ _ _ hm seg hr
          by_cases href : input_table.ttype = TableType.References
          · rw [if_pos href] at hcol
            cases hd : _dereference_pos_list input_table column_id pos_list with
            | none => rw [hd] at hcol; simp at hcol
            | some npl =>
                rw [hd] at hcol
                simp only [Option.bind_eq_bind, Option.some_bind] at hcol
                by_cases hcc : 0 < input_table.chunk_count
                · rw [if_pos hcc] at hcol
                  exact reference_match_references_data input_table hwf column_id
                    seg npl href hcol
                · rw [if_neg hcc] at hcol
                  obtain rfl := (Option.some.inj hcol).symm
                  exact ⟨_, _, _, rfl, rfl⟩
          · rw [if_neg href] at hcol
            obtain rfl := (Option.some.inj hcol).symm
            refine ⟨input_table, column_id, pos_list, rfl, ?_⟩
            rcases htt : input_table.ttype with _ | _
            · rfl
            · exact absurd htt href
  · intro segs hsegs seg hseg
    unfold write_output_segments at hsegs
    cases hm : (List.range input_table.column_count).mapM (fun column_id =>
        if input_table.ttype = TableType.References then do
          let new_pos_list ← _dereference_pos_list input_table column_id pos_list
          match (input_table.chunks.getD 0 []).getD column_id (HSegment.value []) with
          | .reference referenced_table referenced_column_id _ =>
              some (HSegment.reference referenced_table referenced_column_id new_pos_list)
          | .value _ => none
        else
          some (HSegment.reference input_table column_id pos_list)) with
    | none =>
        rw [hm] at hsegs
        simp at hsegs
    | some new_segments =>
        rw [hm] at hsegs
        simp only [Option.bind_eq_bind, Option.some_bind, Option.some.injEq] at hsegs
        subst hsegs
        rcases List.mem_append.mp hseg with hl | hr
        · exact Or.inl hl
        · right
          obtain ⟨column_id, _, hcol⟩ := mem_of_mapM_option _ _ _ hm seg hr
          by_cases href : input_table.ttype = TableType.References
          · rw [if_pos href] at hcol
            cases hd : _dereference_pos_list input_table column_id pos_list with
            | none => rw [hd] at hcol; simp at hcol
            | some npl =>
                rw [hd] at hcol
                simp only [Option.bind_eq_bind, Option.some_bind] at hcol
                exact reference_match_references_data input_table hwf column_id
                  seg npl href hcol
          · rw [if_neg href] at hcol
            obtain rfl := (Option.some.inj hcol).symm
            refine ⟨input_table, column_id, pos_list, rfl, ?_⟩
            rcases htt : input_table.ttype with _ | _
            · rfl
            · exact absurd htt href

/-- C9 witness: the theorem applied to a one-column reference table over a
one-column data table; the produced segment references the data table. -/
theorem join_output_segments_reference_data_witness :
    HSegment.reference (HTable.mk TableType.Data 1 [[HSegment.value [some 5]]]) 0
        [⟨0, 0⟩] ∈ ([] : List HSegment) ∨
      ∃ rt rc pl,
        HSegment.reference (HTable.mk TableType.Data 1 [[HSegment.value [some 5]]]) 0
            [⟨0, 0⟩] = HSegment.reference rt rc pl ∧ rt.ttype = TableType.Data := by
  have hwf : (HTable.mk TableType.References 1
      [[HSegment.reference (HTable.mk TableType.Data 1 [[HSegment.value [some 5]]]) 0
        [⟨0, 0⟩]]]).wellformed := by
    constructor
    · intro _ chunk hc seg hs
      simp only [HTable.chunks, List.mem_singleton] at hc
      subst hc
      simp only [List.mem_singleton] at hs
      subst hs
      exact ⟨_, _, _, rfl, rfl⟩
    · intro h
      exact absurd h (by decide)
  exact (join_output_segments_reference_data []
    (HTable.mk TableType.References 1
      [[HSegment.reference (HTable.mk TableType.Data 1 [[HSegment.value [some 5]]]) 0
        [⟨0, 0⟩]]])
    [⟨0, 0⟩] hwf).1
    [HSegment.reference (HTable.mk TableType.Data 1 [[HSegment.value [some 5]]]) 0
      [⟨0, 0⟩]] rfl _ (List.mem_singleton.mpr rfl)

/-- C5 amended witness: the characterization applied to the concrete pair
(Outer, LessThanEquals), which the constructor accepts. -/
theorem join_sort_merge_validation_characterized_witness :
    joinSortMerge_constructor_valid .Outer .LessThanEquals = true :=
  (join_sort_merge_validation_characterized .Outer .LessThanEquals).mpr
    (by
      refine ⟨by decide, ?_, ?_⟩
      · intro h
        rcases h with h | h <;> cases h
      · intro h
        cases h)

/-- C7 (code bug): a task in state `Enqueued` or `Done` has transitioned past
`Created` (both states are reachable through successful transitions), yet
`set_as_predecessor_of` does not fail for it: `is_scheduled` only checks
`Scheduled`, `AssignedToWorker` and `Started`, so the `Assert` guard passes
and the pending-predecessor counter of the successor is incremented. -/
theorem set_as_predecessor_of_accepts_enqueued_and_done :
    set_as_predecessor_of .Enqueued 0 = some 1 ∧
    set_as_predecessor_of .Done 0 = some 1 ∧
    TaskStep .Created .Scheduled ∧ TaskStep .Scheduled .Enqueued ∧
    is_scheduled .Enqueued = false ∧ is_scheduled .Done = false := by
  decide

end Opossum
